import Mathlib

/-!
Verification of the MedCAT2 concept-linking core against its
natural-language specification.

The Python code under `medcat2/` is shallowly embedded below:
Python `dict`s become association lists (`Dict`), Python `set`s become
lists considered up to membership, dataclass records become structures,
code that can raise becomes `Option`-valued, and every use of the
`random` module becomes an explicit stream of draws (`Rng`).
Floating-point numbers are modelled by rationals; the two numerical
library functions that cannot be expressed in ℚ (the dot product of
unit vectors from `utils.matutils.unitvec`/`numpy.dot`, and
`numpy.log10`) are kept as abstract parameters (`ExtMath`), exactly as
the source keeps `weighted_average_function` abstract.
-/

/-! ### Python dictionaries as association lists -/

/-- A Python `dict` with `String` keys: an insertion-ordered
association list.  Keys are unique whenever the dict is built by
`dinsert` from `[]`. -/
abbrev Dict (α : Type) := List (String × α)

/-- `d[k]` as a total lookup (`None` for a missing key / `KeyError`). -/
def dlookup {α : Type} : Dict α → String → Option α
  | [], _ => none
  | (k', v) :: rest, k => if k' = k then some v else dlookup rest k

/-- `d[k] = v`: overwrite in place, or append a fresh key at the end
(CPython 3.7+ insertion-order semantics). -/
def dinsert {α : Type} : Dict α → String → α → Dict α
  | [], k, v => [(k, v)]
  | (k', v') :: rest, k, v =>
    if k' = k then (k, v) :: rest else (k', v') :: dinsert rest k v

/-- `del d[k]` (total: deleting a missing key is a no-op; the sources
always guard deletions with a membership test). -/
def ddelete {α : Type} : Dict α → String → Dict α
  | [], _ => []
  | (k', v) :: rest, k =>
    if k' = k then ddelete rest k else (k', v) :: ddelete rest k

/-- The key list of a dict (`d.keys()`). -/
def dkeys {α : Type} (d : Dict α) : List String := d.map Prod.fst

/-- Two dicts hold the same contents (extensional equality of lookup). -/
def dequiv {α : Type} (d₁ d₂ : Dict α) : Prop :=
  ∀ k, dlookup d₁ k = dlookup d₂ k

theorem dlookup_dinsert {α : Type} (d : Dict α) (k j : String) (v : α) :
    dlookup (dinsert d k v) j = if k = j then some v else dlookup d j := by
  induction d with
  | nil => simp only [dinsert, dlookup]
  | cons hd tl ih =>
    obtain ⟨k', v'⟩ := hd
    by_cases hk : k' = k
    · by_cases hj : k = j
      · simp [dinsert, dlookup, hk, hj]
      · have : ¬ k' = j := hk ▸ hj
        simp [dinsert, dlookup, hk, hj, this]
    · by_cases hj : k' = j
      · have h1 : ¬ k = j := fun h => hk (h ▸ hj)
        have h2 : ¬ j = k := fun h => h1 h.symm
        simp [dinsert, dlookup, hk, hj, h1, h2]
      · simp [dinsert, dlookup, hk, hj, ih]

theorem dlookup_ddelete {α : Type} (d : Dict α) (k j : String) :
    dlookup (ddelete d k) j = if k = j then none else dlookup d j := by
  induction d with
  | nil => simp [ddelete, dlookup]
  | cons hd tl ih =>
    obtain ⟨k', v'⟩ := hd
    simp only [ddelete]
    by_cases hk : k' = k
    · rw [if_pos hk, ih]
      by_cases hj : k = j
      · simp [hj]
      · have h2 : ¬ k' = j := fun h => hj (hk.symm.trans h)
        simp [dlookup, hj, h2]
    · rw [if_neg hk]
      by_cases hj : k' = j
      · have hkj : ¬ k = j := fun h => hk (h ▸ hj)
        simp [dlookup, hj, hkj]
      · simp [dlookup, hj, ih]

/-- Python set-add: append if not already present (contents are what
matter; iteration order of Python sets is unspecified anyway). -/
def setAdd (l : List String) (x : String) : List String :=
  if x ∈ l then l else l ++ [x]

/-- Python `set.update(xs)`. -/
def setUnion (l xs : List String) : List String := xs.foldl setAdd l

/-! ### Status tags and record types (`medcat2/cdb/concepts.py`) -/

/-- Modelled from the spec: `medcat2.utils.defaults.StatusTypes` is not
under `src/`; the tag values are fixed by the spec's status vocabulary
(§3) together with the literal strings used in `cdb.py`
(`'A'`, `'N'`, `'P'`, `'PD'`). -/
def ST_AUTOMATIC : String := "A"

/-- `StatusTypes.MUST_DISAMBIGATE` (see `ST_AUTOMATIC`). -/
def ST_MUST_DISAMBIGATE : String := "N"

/-- `StatusTypes.PRIMARY_STATUS_NO_DISAMB` (see `ST_AUTOMATIC`). -/
def ST_PRIMARY_NO_DISAMB : String := "P"

/-- `StatusTypes.PRIMARY_STATUS_W_DISAMB` (see `ST_AUTOMATIC`). -/
def ST_PRIMARY_W_DISAMB : String := "PD"

/-- `StatusTypes.PRIMARY_STATUS`: the two "primary" tags (spec §4.3:
"if a candidate's status for this name is one of the primary tags"). -/
def ST_PRIMARY_STATUS : List String := [ST_PRIMARY_NO_DISAMB, ST_PRIMARY_W_DISAMB]

/-- `StatusTypes.DO_DISAMBUGATION`: tags that force disambiguation
(spec §4.4: "single-candidate whose status requires disambiguation"). -/
def ST_DO_DISAMBUGATION : List String := [ST_PRIMARY_W_DISAMB, ST_MUST_DISAMBIGATE]

/-- `StatusTypes.ALLOWED_STATUS` (docstring of `CDB.add_names`:
"One of `P`, `N`, `A`"). -/
def ST_ALLOWED_STATUS : List String := [ST_PRIMARY_NO_DISAMB, ST_MUST_DISAMBIGATE, ST_AUTOMATIC]

/-- A dense embedding vector (a `numpy` 1-d array of floats is
modelled as a list of rationals). -/
abbrev Vec := List ℚ

/-- `c * v` (numpy scalar multiplication). -/
def vscale (c : ℚ) (v : Vec) : Vec := v.map (fun x => c * x)

/-- numpy elementwise addition. -/
def vadd (v w : Vec) : Vec := List.zipWith (· + ·) v w

/-- numpy elementwise subtraction. -/
def vsub (v w : Vec) : Vec := List.zipWith (· - ·) v w

/-- `np.average(values, axis=0)`: the elementwise arithmetic mean.
Only ever called on a non-empty list in the sources (guarded by
`if values:`). -/
def vaverage (vs : List Vec) : Vec :=
  match vs with
  | [] => []
  | v :: rest => vscale (1 / (vs.length : ℚ)) (rest.foldl vadd v)

/-- `cdb/concepts.py` `CUIInfo` (dataclass).  The `tags`/`group`
fields are never touched by the operations under study and are
omitted; `in_other_ontology` is modelled as `Option` following its
actual use in `CDB._add_full_build` (which tests it against `None`). -/
structure CUIInfo where
  cui : String
  preferred_name : String
  names : List String
  subnames : List String
  type_ids : List String
  description : Option String
  original_names : Option (List String)
  in_other_ontology : Option (List String)
  count_train : Nat
  context_vectors : Option (Dict Vec)
  average_confidence : ℚ
  deriving Repr, DecidableEq

/-- `cdb/concepts.py` `NameInfo` (dataclass).  `per_cui_status` is a
`defaultdict(lambda: ST.AUTOMATIC)`; its read-with-insertion semantics
is `NameInfo.statusGet` below. -/
structure NameInfo where
  name : String
  cuis : List String
  per_cui_status : Dict String
  is_upper : Bool
  count_train : Nat
  deriving Repr, DecidableEq

/-- `per_cui_status[cui]` on a `defaultdict(lambda: ST.AUTOMATIC)`:
returns the stored status, or returns `AUTOMATIC` *and inserts*
`(cui ↦ AUTOMATIC)` when the key is absent (CPython `defaultdict.__missing__`
appends the new key at the end). -/
def NameInfo.statusGet (ni : NameInfo) (cui : String) : String × NameInfo :=
  match dlookup ni.per_cui_status cui with
  | some s => (s, ni)
  | none =>
    (ST_AUTOMATIC,
     { ni with per_cui_status := ni.per_cui_status ++ [(cui, ST_AUTOMATIC)] })

/-- `cdb/concepts.py` `TypeInfo` (dataclass). -/
structure TypeInfo where
  type_id : String
  name : String
  cuis : List String
  deriving Repr, DecidableEq

/-- Modelled from the spec: `preprocessors.cleaners.NameDescriptor` is
not under `src/`; its fields are fixed by the spec (§4.1:
`{snames, is_upper, raw_name}`) plus the `tokens` attribute consumed by
`CDB._add_concept_names`. -/
structure NameDescriptor where
  tokens : List String
  snames : List String
  raw_name : String
  is_upper : Bool
  deriving Repr, DecidableEq

/-- Modelled from the spec: `cdb.concepts.get_new_cui_info` is not
under `src/`; it builds a fresh `CUIInfo` carrying the dataclass
defaults for every field not passed by `CDB._add_concept`. -/
def get_new_cui_info (cui preferred_name : String) (type_ids : List String) :
    CUIInfo :=
  { cui := cui, preferred_name := preferred_name, names := [],
    subnames := [], type_ids := type_ids, description := none,
    original_names := none, in_other_ontology := none, count_train := 0,
    context_vectors := none, average_confidence := 0 }

/-- Modelled from the spec: `cdb.concepts.get_new_name_info` is not
under `src/`; it builds a fresh `NameInfo` with the dataclass defaults
(empty status map, not uppercase, no training). -/
def get_new_name_info (name : String) : NameInfo :=
  { name := name, cuis := [], per_cui_status := [], is_upper := false,
    count_train := 0 }

/-! ### The concept store (`medcat2/cdb/cdb.py`) -/

/-- The mutable state of `CDB` (`cdb.py`, `__init__`).  `config` and
`addl_info` are irrelevant to the operations under study, except for
`config.general.separator` which is threaded where needed;
`_subnames` is `subnamesCache`. -/
structure CDB where
  cui2info : Dict CUIInfo
  name2info : Dict NameInfo
  type_id2info : Dict TypeInfo
  token_counts : Dict Nat
  subnamesCache : List String
  is_dirty : Bool
  has_changed_names : Bool
  deriving Repr, DecidableEq

/-- `CDB._reset_subnames`: clear the cache and re-union every
concept's `subnames`. -/
def CDB.resetSubnames (cdb : CDB) : CDB :=
  { cdb with
    subnamesCache :=
      (cdb.cui2info.map (fun p => p.2.subnames)).foldl setUnion [],
    has_changed_names := false }

/-- Body of the per-name loop of `CDB._add_concept_names`: updates the
(already present) `CUIInfo` for `cui` plus `name2info`/`token_counts`/
the subname cache for a single `(name, descriptor)` pair. -/
def CDB.addOneConceptName (cdb : CDB) (cui : String)
    (name : String) (inNameInfo : NameDescriptor) (name_status : String) :
    CDB :=
  match dlookup cdb.cui2info cui with
  | none => cdb
  | some ci =>
    let ci := { ci with
      names := setAdd ci.names name,
      subnames := setUnion ci.subnames inNameInfo.snames }
    let cdb := { cdb with cui2info := dinsert cdb.cui2info cui ci }
    let cdb :=
      if (dlookup cdb.name2info name).isSome then cdb
      else { cdb with
             name2info := dinsert cdb.name2info name (get_new_name_info name) }
    match dlookup cdb.name2info name with
    | none => cdb
    | some ni =>
      let ni := { ni with is_upper := inNameInfo.is_upper }
      let ni :=
        if (dlookup ni.per_cui_status cui).isNone then
          { ni with per_cui_status := dinsert ni.per_cui_status cui name_status }
        else if name_status = ST_PRIMARY_NO_DISAMB then
          { ni with per_cui_status := dinsert ni.per_cui_status cui name_status }
        else ni
      let cdb := { cdb with name2info := dinsert cdb.name2info name ni }
      let tc' := inNameInfo.tokens.foldl
        (fun tc token =>
          match dlookup tc token with
          | some c => dinsert tc token (c + 1)
          | none => dinsert tc token 1) cdb.token_counts
      let cdb := { cdb with token_counts := tc' }
      { cdb with
        subnamesCache := setUnion cdb.subnamesCache ci.subnames,
        is_dirty := true }

/-- `CDB._add_concept_names`. -/
def CDB.addConceptNames (cdb : CDB) (cui : String)
    (names : List (String × NameDescriptor)) (name_status : String) : CDB :=
  names.foldl (fun c p => c.addOneConceptName cui p.1 p.2 name_status) cdb

/-- `CDB._add_full_build`. -/
def CDB.addFullBuild (cdb : CDB) (cui : String)
    (names : List (String × NameDescriptor)) (ontologies : List String)
    (description : String) (type_ids : List String) : CDB :=
  match dlookup cdb.cui2info cui with
  | none => cdb
  | some ci =>
    let orig_names := names.map (fun p => p.2.raw_name)
    let ci :=
      match ci.original_names with
      | none =>
        let ci := if ontologies ≠ [] then
            { ci with in_other_ontology := some ontologies } else ci
        { ci with original_names := some orig_names }
      | some prev =>
        let ontos := setUnion (ci.in_other_ontology.getD []) ontologies
        let ci := if ontologies ≠ [] then
            { ci with in_other_ontology := some ontos }
          else ci
        { ci with original_names := some (setUnion prev orig_names) }
    let ci := if description ≠ "" then
        { ci with description := some description } else ci
    let cdb := { cdb with cui2info := dinsert cdb.cui2info cui ci }
    type_ids.foldl (fun c tid =>
      let fresh : TypeInfo := { type_id := tid, name := "N/A", cuis := [] }
      let t2 := dinsert c.type_id2info tid fresh
      let c := if (dlookup c.type_id2info tid).isSome then c
        else { c with type_id2info := t2 }
      match dlookup c.type_id2info tid with
      | none => c
      | some ti =>
        let t3 := dinsert c.type_id2info tid { ti with cuis := setAdd ti.cuis cui }
        { c with type_id2info := t3 }) cdb

/-- `CDB._add_concept`.  An empty `names` dict logs a warning and
returns with no mutation at all. -/
def CDB.addConcept (cdb : CDB) (cui : String)
    (names : List (String × NameDescriptor)) (ontologies : List String)
    (name_status : String) (type_ids : List String) (description : String)
    (full_build : Bool) : CDB :=
  if names = [] then cdb
  else
    let cdb :=
      match dlookup cdb.cui2info cui with
      | none =>
        let c2 := dinsert cdb.cui2info cui (get_new_cui_info cui "" type_ids)
        { cdb with cui2info := c2 }
      | some ci =>
        let ci' := { ci with type_ids := setUnion ci.type_ids type_ids }
        let c2 := dinsert cdb.cui2info cui ci'
        { cdb with cui2info := c2 }
    let cdb := cdb.addConceptNames cui names name_status
    let cdb :=
      match dlookup cdb.cui2info cui with
      | none => cdb
      | some ci =>
        if name_status = "P" ∧ ci.preferred_name = "" then
          let pn :=
            (names.map (fun (p : String × NameDescriptor) => p.2.raw_name)).getLastD ""
          let c2 := dinsert cdb.cui2info cui { ci with preferred_name := pn }
          { cdb with cui2info := c2 }
        else cdb
    let cdb := if full_build then
        cdb.addFullBuild cui names ontologies description type_ids
      else cdb
    { cdb with is_dirty := true }

/-- `CDB.add_names`: normalize the status (uppercase, fall back to
`AUTOMATIC` for unknown tags) and upsert via `_add_concept`. -/
def CDB.addNames (cdb : CDB) (cui : String)
    (names : List (String × NameDescriptor)) (name_status : String)
    (full_build : Bool) : CDB :=
  let ns := name_status.toUpper
  let ns := if ns ∈ ST_ALLOWED_STATUS then ns else ST_AUTOMATIC
  cdb.addConcept cui names [] ns [] "" full_build

/-- One copy of the removal block of `CDB._remove_names` (the source
repeats this block twice verbatim): drop the `cui` entry from the
name's `per_cui_status` if present, and delete the `NameInfo` record
when its status map is now empty. -/
def removalBlock (n2i : Dict NameInfo) (cui : String) (name : String) :
    Dict NameInfo :=
  match dlookup n2i name with
  | none => n2i
  | some info =>
    let info :=
      if (dlookup info.per_cui_status cui).isSome then
        { info with per_cui_status := ddelete info.per_cui_status cui }
      else info
    if info.per_cui_status.length = 0 then ddelete n2i name
    else dinsert n2i name info

/-- The final block of the per-name loop of `CDB._remove_names`:
when exactly one concept remains for the name, tighten its status
(`'A'` to `'N'`, `'P'` to `'PD'`). -/
def tightenBlock (n2i : Dict NameInfo) (name : String) : Dict NameInfo :=
  match dlookup n2i name with
  | none => n2i
  | some info =>
    if info.per_cui_status.length = 1 then
      let tightened := info.per_cui_status.map (fun p =>
        if p.2 = "A" then (p.1, "N")
        else if p.2 = "P" then (p.1, "PD")
        else p)
      dinsert n2i name { info with per_cui_status := tightened }
    else n2i

/-- Body of the per-name loop of `CDB._remove_names` acting on
`name2info` alone (the loop touches no other field): the removal block
run twice, as in the source, then the status tightening. -/
def removeNameStep (n2i : Dict NameInfo) (cui : String) (name : String) :
    Dict NameInfo :=
  tightenBlock (removalBlock (removalBlock n2i cui name) cui name) name

/-- `CDB._remove_names`. -/
def CDB.removeNames (cdb : CDB) (cui : String) (names : List String) : CDB :=
  let n2i := names.foldl (fun m n => removeNameStep m cui n) cdb.name2info
  { cdb with name2info := n2i, is_dirty := true, has_changed_names := true }

/-- The first loop of `CDB.filter_by_cui`: union the `names` of every
requested CUI that is present (absent CUIs are warned about and
skipped). -/
def namesToKeep (cdb : CDB) (cuis_to_keep : List String) : List String :=
  ((cuis_to_keep.filterMap (fun c => dlookup cdb.cui2info c)).map
    (fun i => i.names)).foldl setUnion []

/-- The second loop of `CDB.filter_by_cui`: collect the
`per_cui_status` keys of every kept name.  `self.name2info[name]` is a
plain dict subscript, so a kept name with no `NameInfo` raises
`KeyError` (`none` here). -/
def cuisOfNames (n2i : Dict NameInfo) : List String → Option (List String)
  | [] => some []
  | n :: rest =>
    match dlookup n2i n with
    | none => none
    | some ni =>
      match cuisOfNames n2i rest with
      | none => none
      | some r => some (dkeys ni.per_cui_status ++ r)

/-- The rebuild loops of `CDB.filter_by_cui` (`for cui in
all_cuis_to_keep: ...` and `for name in names_to_keep: ...`): insert
the source entry for every listed key that is present. -/
def rebuildFrom {α : Type} (src : Dict α) (keys : List String)
    (init : Dict α) : Dict α :=
  keys.foldl (fun acc c =>
    match dlookup src c with
    | none => acc
    | some i => dinsert acc c i) init

/-- `CDB.filter_by_cui`.  Returns `none` when the Python code raises
(the raise happens before `self` is reassigned, so the caller's store
is then unchanged). -/
def CDB.filterByCui (cdb : CDB) (cuis_to_keep : List String) : Option CDB :=
  let ntk := namesToKeep cdb cuis_to_keep
  match cuisOfNames cdb.name2info ntk with
  | none => none
  | some all_cuis =>
    let new_cui2info := rebuildFrom cdb.cui2info all_cuis []
    let new_name2info := rebuildFrom cdb.name2info ntk []
    let cdb := { cdb with
      cui2info := new_cui2info,
      name2info := new_name2info }
    some { cdb.resetSubnames with is_dirty := true }

/-! ### Linking configuration (`medcat2/config/config.py`, `Linking`) -/

/-- `config.components.linking` — the fields consumed by the linking
core.  The `optim` dict is flattened into its three keys. -/
structure LinkingCfg where
  optim_type : String
  optim_lr : ℚ
  optim_base_lr : ℚ
  optim_min_lr : ℚ
  context_vector_sizes : Dict Nat
  context_vector_weights : Dict ℚ
  filters_cuis : List String
  filters_cuis_exclude : List String
  train : Bool
  random_replacement_unsupervised : ℚ
  disamb_length_limit : Nat
  filter_before_disamb : Bool
  train_count_threshold : Int
  always_calculate_similarity : Bool
  calculate_dynamic_threshold : Bool
  similarity_threshold_type : String
  similarity_threshold : ℚ
  negative_probability : ℚ
  negative_ignore_punct_and_num : Bool
  prefer_primary_name : ℚ
  prefer_frequent_concepts : ℚ
  devalue_linked_concepts : Bool
  context_ignore_center_tokens : Bool
  deriving Repr, DecidableEq

/-- The default values of `Linking` in `config.py`. -/
def defaultLinkingCfg : LinkingCfg :=
  { optim_type := "linear", optim_lr := 1, optim_base_lr := 1,
    optim_min_lr := 1 / 20000,
    context_vector_sizes :=
      [("xlong", 27), ("long", 18), ("medium", 9), ("short", 3)],
    context_vector_weights :=
      [("xlong", 1/10), ("long", 2/5), ("medium", 2/5), ("short", 1/10)],
    filters_cuis := [], filters_cuis_exclude := [],
    train := true, random_replacement_unsupervised := 4/5,
    disamb_length_limit := 3, filter_before_disamb := false,
    train_count_threshold := 1, always_calculate_similarity := false,
    calculate_dynamic_threshold := false,
    similarity_threshold_type := "static", similarity_threshold := 1/4,
    negative_probability := 1/2, negative_ignore_punct_and_num := true,
    prefer_primary_name := 7/20, prefer_frequent_concepts := 7/20,
    devalue_linked_concepts := false, context_ignore_center_tokens := false }

/-- `LinkingFilters.check_filters` (`config.py`): a CUI passes when it
is in the inclusion set (or the inclusion set is empty) and not in the
exclusion set. -/
def checkFilters (cnf : LinkingCfg) (cui : String) : Bool :=
  if cui ∈ cnf.filters_cuis ∨ cnf.filters_cuis = [] then
    cui ∉ cnf.filters_cuis_exclude
  else false

/-! ### External collaborators of the context model -/

/-- The numerical collaborators that live outside `src/`
(`utils.matutils.unitvec` plus numpy): `udot x y` stands for
`np.dot(unitvec x, unitvec y)` and `log10` for `np.log10`.  They are
abstract parameters, mirroring how the source receives
`weighted_average_function` from outside. -/
structure ExtMath where
  udot : Vec → Vec → ℚ
  log10 : ℚ → ℚ

/-- Explicit streams of random draws: `floats` feeds
`random.random()`, `picks` feeds `random.choice` (as an index into the
chosen-from list), `ints` feeds `np.random.randint` (as raw indices
into the unigram table).  Streams are consumed head-first; an
exhausted stream yields `0` (the genuine `random` module never
exhausts, and every theorem quantifies over all streams). -/
structure Rng where
  floats : List ℚ
  picks : List Nat
  ints : List Nat
  deriving Repr, DecidableEq

/-- Draw one `random.random()` value. -/
def Rng.popFloat (r : Rng) : ℚ × Rng :=
  match r.floats with
  | [] => (0, r)
  | x :: rest => (x, { r with floats := rest })

/-- Draw one `random.choice` index. -/
def Rng.popPick (r : Rng) : Nat × Rng :=
  match r.picks with
  | [] => (0, r)
  | x :: rest => (x, { r with picks := rest })

/-- Draw `n` raw `np.random.randint` values. -/
def Rng.popInts (r : Rng) (n : Nat) : List Nat × Rng :=
  (r.ints.take n, { r with ints := r.ints.drop n })

/-- `random.choice(l)`: pick the element at the drawn index
(`none` models the `IndexError` on an empty sequence). -/
def pyChoice {α : Type} (l : List α) (k : Nat) : Option α :=
  l.get? (k % l.length)

/-! ### Tokens, documents, entities
(modelled from the spec: `medcat2.tokenizing.tokens` is not under
`src/`; per spec §6 a document is an ordered token sequence with a
per-token "should include in context" predicate and index slicing, and
an entity is a token span carrying an optional detected name and its
link candidates). -/

/-- One document token: its lowercased text (`token.base.lower`) and
the `should_include()` predicate. -/
structure Token where
  lower : String
  keep : Bool
  deriving Repr, DecidableEq

/-- A mention span: `base.start_index`/`base.end_index` are inclusive
token indices into the document. -/
structure Entity where
  start_index : Nat
  end_index : Nat
  detected_name : Option String
  link_candidates : List String
  deriving Repr, DecidableEq

/-- Python slice `doc[a:b]`. -/
def pySlice {α : Type} (l : List α) (a b : Nat) : List α :=
  (l.take b).drop a

/-- The entity's own tokens, `list(entity)` = `doc[start:end+1]`. -/
def entityTokens (doc : List Token) (ent : Entity) : List Token :=
  pySlice doc ent.start_index (ent.end_index + 1)

/-! ### Vocabulary (`medcat2/vocab.py`) -/

/-- `vocab.py` `WordDescriptor` (TypedDict). -/
structure WordDescriptor where
  vector : Option Vec
  count : Nat
  index : Nat
  deriving Repr, DecidableEq

/-- The `Vocab` store: `vocab`, `index2word`, `vec_index2word` and the
negative-sampling `unigram_table`.  Integer keys are `Nat`-keyed
association lists. -/
structure Vocab where
  vocab : Dict WordDescriptor
  index2word : List (Nat × String)
  vec_index2word : List (Nat × String)
  unigram_table : List Nat
  deriving Repr, DecidableEq

/-- Lookup in a `Nat`-keyed dict (`index2word[ind]` etc.). -/
def nlookup {α : Type} : List (Nat × α) → Nat → Option α
  | [], _ => none
  | (k', v) :: rest, k => if k' = k then some v else nlookup rest k

/-- `word in vocab` (`Vocab.__contains__`). -/
def Vocab.hasWord (v : Vocab) (word : String) : Bool :=
  (dlookup v.vocab word).isSome

/-- `Vocab.vec(word)`: plain subscript into `self.vocab` (a missing
word raises, hence `Option (Option Vec)`: outer `none` = `KeyError`,
inner `none` = stored `None` vector). -/
def Vocab.vecOf (v : Vocab) (word : String) : Option (Option Vec) :=
  (dlookup v.vocab word).map (fun wd => wd.vector)

/-! ### The vector context model
(`medcat2/components/linking/vector_context_model.py`) -/

/-- The store maps the `ContextModel` shares with the `CDB`
(constructor arguments `cui2info`/`name2info`; the model mutates them
in place, so they are threaded through every operation). -/
structure CM where
  cui2info : Dict CUIInfo
  name2info : Dict NameInfo
  deriving Repr, DecidableEq

/-- The immutable collaborators of `ContextModel.__init__`:
`weighted_average_function` (`waf`), the vocabulary, the linking
config, the name separator, plus the external numeric functions. -/
structure CMEnv where
  waf : Nat → ℚ
  vocab : Vocab
  cnf : LinkingCfg
  name_separator : String
  em : ExtMath

/-- `ContextModel.get_context_tokens`: window of includable tokens to
the left (nearest first), the entity's own tokens, and includable
tokens to the right. -/
def getContextTokens (ent : Entity) (doc : List Token) (size : Nat) :
    List Token × List Token × List Token :=
  let s := ent.start_index
  let e := ent.end_index
  let tokens_left := ((pySlice doc (s - size) s).filter (fun t => t.keep)).reverse
  let tokens_center := entityTokens doc ent
  let tokens_right := (pySlice doc (e + 1) (e + 1 + size)).filter (fun t => t.keep)
  (tokens_left, tokens_center, tokens_right)

/-- `ContextModel._tokens2vecs` over already-lowercased words: each
in-vocabulary word with a vector contributes its vector scaled by
`weighted_average_function(step)`, where `step` is the position in the
full input list. -/
def tokens2vecs (env : CMEnv) (lowers : List String) : List Vec :=
  lowers.enum.filterMap (fun p =>
    if env.vocab.hasWord p.2 then
      match env.vocab.vecOf p.2 with
      | some (some v) => some (vscale (env.waf p.1) v)
      | _ => none
    else none)

/-- `ContextModel._should_change_name`, given the `random.random()`
draw `r`.  Note `bool(self.cui2info.get(cui, None))` in the source:
a `CUIInfo` dataclass instance is always truthy, so this is a pure
*presence* test on `cui2info` — `count_train` plays no role. -/
def shouldChangeName (env : CMEnv) (cm : CM) (cui : String) (r : ℚ) : Bool :=
  if r ≤ env.cnf.random_replacement_unsupervised then false
  else (dlookup cm.cui2info cui).isSome

/-- `ContextModel._preprocess_center_tokens`: during training
(`cui` supplied) possibly replace the center tokens with a randomly
chosen name of the concept before vectorizing.  `none` models the
`IndexError` of `random.choice` on an empty name set. -/
def preprocessCenterTokens (env : CMEnv) (cm : CM) (cuiOpt : Option String)
    (tokens_center : List Token) (rng : Rng) : Option (List Vec) × Rng :=
  match cuiOpt with
  | none => (some (tokens2vecs env (tokens_center.map Token.lower)), rng)
  | some cui =>
    let (r, rng) := rng.popFloat
    if shouldChangeName env cm cui r then
      match dlookup cm.cui2info cui with
      | none => (some (tokens2vecs env (tokens_center.map Token.lower)), rng)
      | some info =>
        let (k, rng) := rng.popPick
        match pyChoice info.names k with
        | none => (none, rng)
        | some new_name =>
          let toks := (new_name.splitOn env.name_separator).map String.toLower
          (some (tokens2vecs env toks), rng)
    else (some (tokens2vecs env (tokens_center.map Token.lower)), rng)

/-- The per-window-label body of `ContextModel.get_context_vectors`:
average the scaled left + (possibly replaced) center + right vectors;
labels without contributing vectors are omitted. -/
def gcvStep (env : CMEnv) (cm : CM) (ent : Entity) (doc : List Token)
    (cuiOpt : Option String) (acc : Option (Dict Vec) × Rng)
    (p : String × Nat) : Option (Dict Vec) × Rng :=
  match acc with
  | (none, r) => (none, r)
  | (some d, r) =>
    let (tl, tc, tr) := getContextTokens ent doc p.2
    let lv := tokens2vecs env (tl.map Token.lower)
    let res :=
      if env.cnf.context_ignore_center_tokens then (some [], r)
      else preprocessCenterTokens env cm cuiOpt tc r
    match res with
    | (none, r) => (none, r)
    | (some cv, r) =>
      let rv := tokens2vecs env (tr.map Token.lower)
      let values := lv ++ cv ++ rv
      if values = [] then (some d, r)
      else (some (dinsert d p.1 (vaverage values)), r)

/-- `ContextModel.get_context_vectors`: fold `gcvStep` over the
configured window sizes. -/
def getContextVectors (env : CMEnv) (cm : CM) (ent : Entity)
    (doc : List Token) (cuiOpt : Option String) (rng : Rng) :
    Option (Dict Vec) × Rng :=
  env.cnf.context_vector_sizes.foldl (gcvStep env cm ent doc cuiOpt)
    (some [], rng)

/-- `vector_context_model.get_similarity`: weight-ordered sum of
`udot` over labels present on both sides (the `cui`/`cui2info`
parameters of the source are only used for logging and are dropped). -/
def getSimilarity (em : ExtMath) (cur_vectors other : Dict Vec)
    (weights : Dict ℚ) : ℚ :=
  weights.foldl (fun sim p =>
    match dlookup other p.1 with
    | none => sim
    | some v2 =>
      match dlookup cur_vectors p.1 with
      | none => sim
      | some v1 => sim + p.2 * em.udot v1 v2) 0

/-- `ContextModel._similarity`: `-1` sentinel when the concept has no
(non-empty) stored vectors or too few training examples; `none` is the
`KeyError` of `self.cui2info[cui]`. -/
def cmSimilarityRaw (env : CMEnv) (cm : CM) (cui : String)
    (vectors : Dict Vec) : Option ℚ :=
  match dlookup cm.cui2info cui with
  | none => none
  | some info =>
    match info.context_vectors with
    | some cvs =>
      if cvs ≠ [] ∧ (info.count_train : Int) ≥ env.cnf.train_count_threshold
      then some (getSimilarity env.em cvs vectors env.cnf.context_vector_weights)
      else some (-1)
    | none => some (-1)

/-- `ContextModel.similarity`: vectorize the context (no target cui,
hence no random draws) and score. -/
def cmSimilarity (env : CMEnv) (cm : CM) (cui : String) (ent : Entity)
    (doc : List Token) (rng : Rng) : Option ℚ × Rng :=
  match getContextVectors env cm ent doc none rng with
  | (none, r) => (none, r)
  | (some vecs, r) => (cmSimilarityRaw env cm cui vecs, r)

/-- `vector_context_model.get_lr_linking`; `none` models the
`Exception("Optimizer not implemented")`. -/
def getLrLinking (cnf : LinkingCfg) (cui_count : Nat) : Option ℚ :=
  if cnf.optim_type = "standard" then some cnf.optim_lr
  else if cnf.optim_type = "linear" then
    some (max (cnf.optim_base_lr / ((cui_count : ℚ) + 1)) cnf.optim_min_lr)
  else none

/-- `vector_context_model.update_context_vectors` (the `cui` parameter
of the source is only used for logging and is dropped): blend toward /
away from the new vector per label; a label absent from the stored
dict stores the new vector (negated for a negative update). -/
def updateContextVectors (em : ExtMath) (to_update : Dict Vec)
    (new_vecs : Dict Vec) (lr : ℚ) (negative : Bool) : Dict Vec :=
  new_vecs.foldl (fun acc p =>
    match dlookup acc p.1 with
    | some cv =>
      let similarity := em.udot cv p.2
      if negative then
        let b := max 0 similarity * lr
        dinsert acc p.1 (vsub (vscale (1 - b) cv) (vscale b p.2))
      else
        let b := (1 - max 0 similarity) * lr
        dinsert acc p.1 (vadd (vscale (1 - b) cv) (vscale b p.2))
    | none =>
      if negative then dinsert acc p.1 (vscale (-1) p.2)
      else dinsert acc p.1 p.2) to_update

/-- `vector_context_model.get_updated_average_confidence`. -/
def getUpdatedAverageConfidence (cur_ac : ℚ) (cnt_train : Nat)
    (new_sim : ℚ) : ℚ :=
  (cur_ac * (cnt_train : ℚ) + new_sim) / ((cnt_train : ℚ) + 1)

/-- The `for name in names` loop of the `negative` branch of
`ContextModel.train`: missing names are skipped; the defaultdict read
`per_cui_status[cui]` itself persists an `AUTOMATIC` entry; a `P`
status is tightened to `PD` and an `A` status to `N`. -/
def negativeNameUpdates (n2i : Dict NameInfo) (cui : String)
    (names : List String) : Dict NameInfo :=
  names.foldl (fun m name =>
    match dlookup m name with
    | none => m
    | some ni =>
      let read := ni.statusGet cui
      let m := dinsert m name read.2
      if read.1 = ST_PRIMARY_NO_DISAMB then
        let ps := dinsert read.2.per_cui_status cui ST_PRIMARY_W_DISAMB
        dinsert m name { read.2 with per_cui_status := ps }
      else if read.1 = ST_AUTOMATIC then
        let ps := dinsert read.2.per_cui_status cui ST_MUST_DISAMBIGATE
        dinsert m name { read.2 with per_cui_status := ps }
      else m) n2i

/-- The list comprehension feeding `chain` in the devaluation block of
`ContextModel.train`: `self.name2info[name].cuis` for each name
(plain subscript, so a missing name raises). -/
def cuisViaNames (n2i : Dict NameInfo) : List String → Option (List String)
  | [] => some []
  | n :: rest =>
    match dlookup n2i n with
    | none => none
    | some ni =>
      match cuisViaNames n2i rest with
      | none => none
      | some r => some (ni.cuis ++ r)

/-- The `for _cui in _other_cuis` devaluation loop of
`ContextModel.train`: concepts without (non-empty) stored vectors
adopt the new vectors as-is, the others get a negative update. -/
def devalueOthers (em : ExtMath) (c2i : Dict CUIInfo) (others : List String)
    (vectors : Dict Vec) (lr : ℚ) : Option (Dict CUIInfo) :=
  match others with
  | [] => some c2i
  | c :: rest =>
    match dlookup c2i c with
    | none => none
    | some info =>
      let cvs' :=
        match info.context_vectors with
        | none => vectors
        | some cvs =>
          if cvs = [] then vectors
          else updateContextVectors em cvs vectors lr true
      devalueOthers em (dinsert c2i c { info with context_vectors := some cvs' })
        rest vectors lr

/-- The body of `ContextModel.train` after the context vectors, the
concept record and the learning rate have been obtained (source lines
265 onward), taking those three values as arguments. -/
def trainTail (env : CMEnv) (cm : CM) (cui : String) (ent : Entity)
    (doc : List Token) (negative : Bool) (names : List String) (rng1 : Rng)
    (vectors : Dict Vec) (cui_info0 : CUIInfo) (lr : ℚ) :
    Option (CM × Rng) :=
  let cvs' :=
    match cui_info0.context_vectors with
    | none => vectors
    | some cvs =>
      if cvs = [] then vectors
      else updateContextVectors env.em cvs vectors lr negative
  let ct' := if negative then cui_info0.count_train
             else cui_info0.count_train + 1
  let cui_info1 := { cui_info0 with
                     context_vectors := some cvs', count_train := ct' }
  let cm1 : CM := { cm with cui2info := dinsert cm.cui2info cui cui_info1 }
  let n2iAfterName : Option (Dict NameInfo) :=
    if negative then some cm1.name2info
    else
      match ent.detected_name with
      | some dn =>
        if dn ≠ "" then
          match dlookup cm1.name2info dn with
          | none => none
          | some ni =>
            let ni' := { ni with count_train := ni.count_train + 1 }
            some (dinsert cm1.name2info dn ni')
        else some cm1.name2info
      | none => some cm1.name2info
  match n2iAfterName with
  | none => none
  | some n2i2 =>
    let cm2 : CM := { cm1 with name2info := n2i2 }
    let cm3 :=
      if ¬ negative ∧ env.cnf.calculate_dynamic_threshold then
        match (cmSimilarity env cm2 cui ent doc rng1).1 with
        | none => cm2
        | some sim =>
          match dlookup cm2.cui2info cui with
          | none => cm2
          | some ci =>
            let nc := getUpdatedAverageConfidence
              ci.average_confidence ci.count_train sim
            let ci' := { ci with average_confidence := nc }
            { cm2 with cui2info := dinsert cm2.cui2info cui ci' }
      else cm2
    let cm4 :=
      if negative then
        { cm3 with name2info := negativeNameUpdates cm3.name2info cui names }
      else cm3
    if ¬ negative ∧ env.cnf.devalue_linked_concepts then
      match dlookup cm4.cui2info cui with
      | none => none
      | some ci =>
        match cuisViaNames cm4.name2info ci.names with
        | none => none
        | some allc =>
          let others := allc.eraseDups.filter (fun c => c ≠ cui)
          match devalueOthers env.em cm4.cui2info others vectors lr with
          | none => none
          | some c2i => some ({ cm4 with cui2info := c2i }, rng1)
    else some (cm4, rng1)

/-- `ContextModel.train`.  Result `none` models an uncaught exception
(`KeyError` from a plain dict subscript, unknown optimizer, or
`IndexError` inside the random name replacement); the Python
mutations all happen after the last possible raise of the
non-devaluation path, so returning the unchanged store on `none` is
faithful for the paths under study. -/
def trainCM (env : CMEnv) (cm : CM) (cui : String) (ent : Entity)
    (doc : List Token) (negative : Bool) (names : List String) (rng : Rng) :
    Option (CM × Rng) :=
  if (entityTokens doc ent).length = 0 then some (cm, rng)
  else
    match getContextVectors env cm ent doc (some cui) rng with
    | (none, _) => none
    | (some vectors, rng1) =>
      match dlookup cm.cui2info cui with
      | none => none
      | some cui_info0 =>
        match getLrLinking env.cnf cui_info0.count_train with
        | none => none
        | some lr =>
          trainTail env cm cui ent doc negative names rng1 vectors cui_info0 lr

/-- Whether a word survives the `ignore_punct_and_num` filter of
`Vocab.get_negative_samples` (`word.upper().isupper()`: the word
contains at least one letter). -/
def hasLetter (s : String) : Bool := s.any Char.isAlpha

/-- The filtering comprehension of `Vocab.get_negative_samples`
(`self.index2word[ind]` is a plain subscript, so a stale index
raises). -/
def filterLetterInds (v : Vocab) : List Nat → Option (List Nat)
  | [] => some []
  | i :: rest =>
    match nlookup v.index2word i with
    | none => none
    | some w =>
      match filterLetterInds v rest with
      | none => none
      | some r => some (if hasLetter w then i :: r else r)

/-- `Vocab.get_negative_samples`: raises without a unigram table, else
draws `n` random positions in the table. -/
def getNegativeSamples (v : Vocab) (n : Nat) (ignore_punct_and_num : Bool)
    (rng : Rng) : Option (List Nat) × Rng :=
  if v.unigram_table.length = 0 then (none, rng)
  else
    let (draws, rng) := rng.popInts n
    let inds := draws.map
      (fun d => v.unigram_table.getD (d % v.unigram_table.length) 0)
    if ignore_punct_and_num then (filterLetterInds v inds, rng)
    else (some inds, rng)

/-- `Vocab.get_vectors`: keep indices present in `vec_index2word`; a
missing `index2word` entry raises, and a `None` vector would poison
the later `np.average` (both are `none`). -/
def vocabGetVectors (v : Vocab) : List Nat → Option (List Vec)
  | [] => some []
  | i :: rest =>
    if (nlookup v.vec_index2word i).isSome then
      match nlookup v.index2word i with
      | none => none
      | some w =>
        match v.vecOf w with
        | some (some vec) =>
          match vocabGetVectors v rest with
          | none => none
          | some r => some (vec :: r)
        | _ => none
    else vocabGetVectors v rest

/-- The per-window sampling loop of
`ContextModel.train_using_negative_sampling`. -/
def tnsVectors (env : CMEnv) (sizes : List (String × Nat)) (acc : Dict Vec)
    (rng : Rng) : Option (Dict Vec × Rng) :=
  match sizes with
  | [] => some (acc, rng)
  | (ct, size) :: rest =>
    match getNegativeSamples env.vocab size
        env.cnf.negative_ignore_punct_and_num rng with
    | (none, _) => none
    | (some inds, rng1) =>
      match vocabGetVectors env.vocab inds with
      | none => none
      | some values =>
        let acc := if values.length > 0 then dinsert acc ct (vaverage values)
                   else acc
        tnsVectors env rest acc rng1

/-- `ContextModel.train_using_negative_sampling`: sample a random
context per window label and apply the update rule as a negative
example (a concept without stored vectors adopts the sampled vectors
as-is). -/
def trainUsingNegativeSampling (env : CMEnv) (cm : CM) (cui : String)
    (rng : Rng) : Option (CM × Rng) :=
  match tnsVectors env env.cnf.context_vector_sizes [] rng with
  | none => none
  | some (vectors, rng1) =>
    match dlookup cm.cui2info cui with
    | none => none
    | some info =>
      match getLrLinking env.cnf info.count_train with
      | none => none
      | some lr =>
        let cvs' :=
          match info.context_vectors with
          | none => vectors
          | some cvs =>
            if cvs = [] then vectors
            else updateContextVectors env.em cvs vectors lr true
        let info' := { info with context_vectors := some cvs' }
        some ({ cm with cui2info := dinsert cm.cui2info cui info' }, rng1)

/-! ### The linker (`medcat2/components/linking/context_based_linker.py`) -/

/-- `np.argmax`: index of the first occurrence of the maximum
(`0` for the empty list, on which numpy would raise; every call site
guards non-emptiness). -/
def argmaxIdx : List ℚ → Nat
  | [] => 0
  | x :: rest =>
    let j := argmaxIdx rest
    match rest.get? j with
    | none => 0
    | some y => if x < y then j + 1 else 0

/-- The `prefer_primary_name` loop of
`ContextModel._preprocess_disamb_similarities`: for every candidate
with positive similarity the status of `(name, cui)` is read through
`self.name2info[name]` — a plain subscript that raises on a missing
name — followed by a defaultdict read that persists; primary-status
candidates are boosted and clamped at `0.99`. -/
def boostPrimaryLoop (env : CMEnv) (n2i : Dict NameInfo) (name : String) :
    List (String × ℚ) → Option (List ℚ × Dict NameInfo)
  | [] => some ([], n2i)
  | (cui, sim) :: rest =>
    if sim ≤ 0 then
      (boostPrimaryLoop env n2i name rest).map (fun p => (sim :: p.1, p.2))
    else
      match dlookup n2i name with
      | none => none
      | some ni =>
        let read := ni.statusGet cui
        let n2i' := dinsert n2i name read.2
        let newSim :=
          if read.1 ∈ ST_PRIMARY_STATUS then
            min (99 / 100) (sim * (1 + env.cnf.prefer_primary_name))
          else sim
        (boostPrimaryLoop env n2i' name rest).map (fun p => (newSim :: p.1, p.2))

/-- `[self.cui2info[cui].count_train for cui in cuis]` (plain
subscripts: a missing candidate raises). -/
def cntsOf (c2i : Dict CUIInfo) : List String → Option (List Nat)
  | [] => some []
  | c :: rest =>
    match dlookup c2i c with
    | none => none
    | some i => (cntsOf c2i rest).map (fun r => i.count_train :: r)

/-- `ContextModel._preprocess_disamb_similarities`: primary-name boost
first, then the frequency boost (`log10`-scaled, only for candidates
with more than 10 training examples, minimum count floored at 1`). -/
def preprocessDisambSims (env : CMEnv) (cm : CM) (name : String)
    (cuis : List String) (sims : List ℚ) : Option (List ℚ × CM) :=
  let step1 : Option (List ℚ × Dict NameInfo) :=
    if env.cnf.prefer_primary_name > 0 then
      boostPrimaryLoop env cm.name2info name (cuis.zip sims)
    else some (sims, cm.name2info)
  match step1 with
  | none => none
  | some (sims1, n2i) =>
    let cm := { cm with name2info := n2i }
    if env.cnf.prefer_frequent_concepts > 0 then
      match cntsOf cm.cui2info cuis with
      | none => none
      | some cnts =>
        match cnts.min? with
        | none => none
        | some mn =>
          let m : Nat := if mn = 0 then 1 else mn
          let scales := cnts.map (fun (cnt : Nat) =>
            if cnt > 10 then
              env.em.log10 ((cnt : ℚ) / (m : ℚ)) * env.cnf.prefer_frequent_concepts
            else 0)
          let sims2 := List.zipWith
            (fun sim scale => min (99 / 100) (sim + sim * scale)) sims1 scales
          some (sims2, cm)
    else some (sims1, cm)

/-- `[self._similarity(cui, vectors) for cui in cuis]`. -/
def simsOf (env : CMEnv) (cm : CM) (vectors : Dict Vec) :
    List String → Option (List ℚ)
  | [] => some []
  | c :: rest =>
    match cmSimilarityRaw env cm c vectors with
    | none => none
    | some s => (simsOf env cm vectors rest).map (fun r => s :: r)

/-- `ContextModel.disambiguate`: optional pre-filtering, raw
similarities, the two boosts, then `argmax`.  Candidate list empty
after filtering returns `(None, 0)`. -/
def disambiguateCM (env : CMEnv) (cm : CM) (cuis : List String) (ent : Entity)
    (name : String) (doc : List Token) (rng : Rng) :
    Option ((Option String × ℚ) × CM × Rng) :=
  match getContextVectors env cm ent doc none rng with
  | (none, _) => none
  | (some vectors, rng1) =>
    let cuis := if env.cnf.filter_before_disamb then
        cuis.filter (fun c => checkFilters env.cnf c)
      else cuis
    if cuis = [] then some ((none, 0), cm, rng1)
    else
      match simsOf env cm vectors cuis with
      | none => none
      | some sims =>
        match preprocessDisambSims env cm name cuis sims with
        | none => none
        | some (sims', cm') =>
          let mx := argmaxIdx sims'
          some ((some (cuis.getD mx ""), sims'.getD mx 0), cm', rng1)

/-- `Linker._check_similarity`: static / dynamic threshold; any other
threshold type returns `False` unconditionally. -/
def checkSimilarity (cnf : LinkingCfg) (c2i : Dict CUIInfo) (cui : String)
    (context_similarity : ℚ) : Option Bool :=
  if cnf.similarity_threshold_type = "static" then
    some (context_similarity ≥ cnf.similarity_threshold)
  else if cnf.similarity_threshold_type = "dynamic" then
    match dlookup c2i cui with
    | none => none
    | some info =>
      some (context_similarity ≥ info.average_confidence * cnf.similarity_threshold)
  else some false

/-- The direct-link branch of `Linker._process_entity_nt_w_name`
(`cui = cuis[0]`, similarity 1 unless `always_calculate_similarity`). -/
def directLinkStep (env : CMEnv) (cm : CM) (cuis : List String) (ent : Entity)
    (doc : List Token) (rng : Rng) :
    Option ((Option String × ℚ) × CM × Rng) :=
  match cuis with
  | [] => none
  | c :: _ =>
    if env.cnf.always_calculate_similarity then
      match cmSimilarity env cm c ent doc rng with
      | (none, _) => none
      | (some s, rng') => some ((some c, s), cm, rng')
    else some ((some c, 1), cm, rng)

/-- `Linker._process_entity_nt_w_name`: decide
disambiguate-vs-direct-link.  The status read of the single-candidate
test is a defaultdict read whose insertion persists. -/
def processEntityNtWName (env : CMEnv) (cm : CM) (doc : List Token)
    (ent : Entity) (cuis : List String) (name : String) (rng : Rng) :
    Option ((Option String × ℚ) × CM × Rng) :=
  match dlookup cm.name2info name with
  | none => none
  | some name_info =>
    if name.length < env.cnf.disamb_length_limit then
      disambiguateCM env cm cuis ent name doc rng
    else
      match cuis with
      | [c] =>
        let read := name_info.statusGet c
        let cm := { cm with name2info := dinsert cm.name2info name read.2 }
        if read.1 ∈ ST_DO_DISAMBUGATION then
          disambiguateCM env cm cuis ent name doc rng
        else directLinkStep env cm cuis ent doc rng
      | _ =>
        if cuis.length > 1 then disambiguateCM env cm cuis ent name doc rng
        else directLinkStep env cm cuis ent doc rng

/-- `Linker._process_entity_inference`: skip candidate-less mentions;
with a detected name go through the disambiguate-or-direct policy,
without one disambiguate under the literal sentinel name `"unk-unk"`;
then apply the concept filter and the similarity threshold.  The
accepted `(cui, similarity)` pair models `entity.cui` /
`entity.context_similarity` of a yielded entity. -/
def processEntityInference (env : CMEnv) (cm : CM) (doc : List Token)
    (ent : Entity) (rng : Rng) :
    Option (Option (String × ℚ) × CM × Rng) :=
  let cuis := ent.link_candidates
  if cuis = [] then some (none, cm, rng)
  else
    let resO :=
      match ent.detected_name with
      | some name => processEntityNtWName env cm doc ent cuis name rng
      | none => disambiguateCM env cm cuis ent "unk-unk" doc rng
    match resO with
    | none => none
    | some ((cuiO, context_similarity), cm1, rng1) =>
      match cuiO with
      | none => some (none, cm1, rng1)
      | some cui =>
        if cui = "" ∨ ¬ checkFilters env.cnf cui then some (none, cm1, rng1)
        else
          match checkSimilarity env.cnf cm1.cui2info cui context_similarity with
          | none => none
          | some ok =>
            if ok then some (some (cui, context_similarity), cm1, rng1)
            else some (none, cm1, rng1)

/-- `Linker._train`: always train positively, probabilistically add a
negative-sampling update, and bump the `(detected_name - cui)` pair in
`train_counter`. -/
def linkerTrainOne (env : CMEnv) (cm : CM) (tc : Dict Nat) (cui : String)
    (ent : Entity) (doc : List Token) (add_negative : Bool) (rng : Rng) :
    Option (CM × Dict Nat × Rng) :=
  let nm := (match ent.detected_name with
             | some s => s
             | none => "None") ++ " - " ++ cui
  match trainCM env cm cui ent doc false [] rng with
  | none => none
  | some (cm1, rng1) =>
    let next :=
      if add_negative then
        let (r, rng2) := rng1.popFloat
        if env.cnf.negative_probability ≥ r then
          trainUsingNegativeSampling env cm1 cui rng2
        else some (cm1, rng2)
      else some (cm1, rng1)
    match next with
    | none => none
    | some (cm2, rng3) =>
      some (cm2, dinsert tc nm ((dlookup tc nm).getD 0 + 1), rng3)

/-- The `else: for cui in cuis` loop of `Linker._process_entity_train`
(multiple candidates: train only on primary-status candidates). -/
def trainLoopMulti (env : CMEnv) (cm : CM) (tc : Dict Nat) (ent : Entity)
    (doc : List Token) (name : String) (cuis : List String) (rng : Rng) :
    Option (CM × Dict Nat × List (String × ℚ) × Rng) :=
  match cuis with
  | [] => some (cm, tc, [], rng)
  | cui :: rest =>
    match dlookup cm.name2info name with
    | none => trainLoopMulti env cm tc ent doc name rest rng
    | some ni =>
      let read := ni.statusGet cui
      let cm := { cm with name2info := dinsert cm.name2info name read.2 }
      if read.1 ∉ ST_PRIMARY_STATUS then
        trainLoopMulti env cm tc ent doc name rest rng
      else
        match linkerTrainOne env cm tc cui ent doc true rng with
        | none => none
        | some (cm', tc', rng') =>
          match trainLoopMulti env cm' tc' ent doc name rest rng' with
          | none => none
          | some (cm'', tc'', accepted, rng'') =>
            some (cm'', tc'', (cui, 1) :: accepted, rng'')

/-- `Linker._process_entity_train`: mentions without a detected name
or shorter than the disambiguation floor are skipped; a single
candidate is trained unless its status is must-disambiguate (the
status read is a persisting defaultdict read); multiple candidates are
trained on primary-status candidates only.  The returned list models
the `(entity.cui, entity.context_similarity)` pairs of the yielded
entities. -/
def processEntityTrain (env : CMEnv) (cm : CM) (tc : Dict Nat)
    (doc : List Token) (ent : Entity) (rng : Rng) :
    Option (CM × Dict Nat × List (String × ℚ) × Rng) :=
  match ent.detected_name with
  | none => some (cm, tc, [], rng)
  | some name =>
    let cuis := ent.link_candidates
    if name.length < env.cnf.disamb_length_limit then some (cm, tc, [], rng)
    else
      match cuis with
      | [c] =>
        match dlookup cm.name2info name with
        | none => some (cm, tc, [], rng)
        | some ni =>
          let read := ni.statusGet c
          let cm := { cm with name2info := dinsert cm.name2info name read.2 }
          if read.1 = ST_MUST_DISAMBIGATE then some (cm, tc, [], rng)
          else
            match linkerTrainOne env cm tc c ent doc true rng with
            | none => none
            | some (cm', tc', rng') => some (cm', tc', [(c, 1)], rng')
      | _ => trainLoopMulti env cm tc ent doc name cuis rng

/-! ## Claims -/

/-! ### C7 — threshold fail-closed -/

/-- C7: for every CUI and every similarity value, if the configured
`similarity_threshold_type` is neither `"static"` nor `"dynamic"`, the
linker's threshold check `Linker._check_similarity` returns `False` —
every candidate is rejected unconditionally, regardless of how high
its similarity is. -/
theorem C7_threshold_fail_closed (cnf : LinkingCfg) (c2i : Dict CUIInfo)
    (cui : String) (sim : ℚ)
    (h1 : cnf.similarity_threshold_type ≠ "static")
    (h2 : cnf.similarity_threshold_type ≠ "dynamic") :
    checkSimilarity cnf c2i cui sim = some false := by
  simp [checkSimilarity, h1, h2]

/-- Witness for C7: a concrete misconfigured threshold type rejects a
similarity of 100. -/
theorem C7_witness :
    checkSimilarity
      { defaultLinkingCfg with similarity_threshold_type := "sttic" }
      [] "C1" 100 = some false :=
  C7_threshold_fail_closed _ [] "C1" 100 (by decide) (by decide)

/-! ### C8 — empty names mapping is a complete no-op -/

/-- C8: for every store state, calling `_add_concept` (or `add_names`)
with an empty names mapping returns without raising and performs no
mutation at all: `cui2info`, `name2info`, `type_id2info` and
`token_counts` are unchanged (indeed the whole store is), and no
`CUIInfo` record is created even for a previously unseen cui. -/
theorem C8_empty_names_no_mutation (cdb : CDB) (cui : String)
    (ontologies : List String) (name_status : String)
    (type_ids : List String) (description : String) (full_build : Bool)
    (ns2 : String) (fb2 : Bool) :
    cdb.addConcept cui [] ontologies name_status type_ids description
        full_build = cdb
    ∧ cdb.addNames cui [] ns2 fb2 = cdb := by
  refine ⟨?_, ?_⟩
  · simp [CDB.addConcept]
  · simp [CDB.addNames, CDB.addConcept]

/-! ### C10 — status lookups on unseen pairs grow the map -/

def c10Vocab : Vocab :=
  { vocab := [("t", { vector := some [1], count := 1, index := 0 })],
    index2word := [(0, "t")], vec_index2word := [(0, "t")],
    unigram_table := [] }

def c10Env : CMEnv :=
  { waf := fun _ => 1, vocab := c10Vocab,
    cnf := { defaultLinkingCfg with
             context_vector_sizes := [("short", 1)],
             context_vector_weights := [("short", 1)] },
    name_separator := "~",
    em := { udot := fun _ _ => 0, log10 := fun _ => 0 } }

def c10CM : CM :=
  { cui2info := [("C1", { get_new_cui_info "C1" "" [] with names := ["nmx"] })],
    name2info := [("nmx", get_new_name_info "nmx")] }

def c10Doc : List Token := [{ lower := "t", keep := true }]

def c10Ent : Entity :=
  { start_index := 0, end_index := 0, detected_name := some "nmx",
    link_candidates := ["C1"] }

def c10Rng : Rng := { floats := [1/2, 9/10], picks := [], ints := [] }

/-- C10: indexing `per_cui_status[cui]` on a pair absent from the map
returns the AUTOMATIC status and, as a side effect, inserts the
`(cui ↦ AUTOMATIC)` entry — the map grows on read.  The second
conjunct exhibits this through the linker: `_process_entity_train` on
a store whose `NameInfo` for the detected name has an empty
`per_cui_status` leaves that map holding `("C1", AUTOMATIC)` after the
single status lookup at line 78 of `context_based_linker.py`. -/
theorem C10_status_lookup_inserts_automatic :
    (∀ (ni : NameInfo) (cui : String),
      dlookup ni.per_cui_status cui = none →
      ni.statusGet cui =
        (ST_AUTOMATIC,
         { ni with per_cui_status := ni.per_cui_status ++ [(cui, ST_AUTOMATIC)] }))
    ∧ ((processEntityTrain c10Env c10CM [] c10Doc c10Ent c10Rng).map
        (fun r => dlookup r.1.name2info "nmx"))
      = some (some { name := "nmx", cuis := [],
                     per_cui_status := [("C1", ST_AUTOMATIC)],
                     is_upper := false, count_train := 1 }) := by
  refine ⟨?_, by with_unfolding_all decide⟩
  intro ni cui h
  simp [NameInfo.statusGet, h]

/-- Witness for C10: the defaultdict read on a fresh `NameInfo`
returns AUTOMATIC and stores it. -/
theorem C10_witness :
    dlookup (get_new_name_info "x").per_cui_status "C" = none ∧
    (get_new_name_info "x").statusGet "C" =
      (ST_AUTOMATIC,
       { get_new_name_info "x" with
         per_cui_status :=
           (get_new_name_info "x").per_cui_status ++ [("C", ST_AUTOMATIC)] }) :=
  ⟨by decide,
   C10_status_lookup_inserts_automatic.1 (get_new_name_info "x") "C" (by decide)⟩

/-! ### C5 — center-token replacement is gated on record presence,
not on `count_train` -/

def c5Vocab : Vocab :=
  { vocab := [("a", { vector := some [1], count := 1, index := 0 }),
              ("xy", { vector := some [2], count := 1, index := 1 })],
    index2word := [(0, "a"), (1, "xy")],
    vec_index2word := [(0, "a"), (1, "xy")], unigram_table := [] }

def c5Env : CMEnv :=
  { waf := fun _ => 1, vocab := c5Vocab, cnf := defaultLinkingCfg,
    name_separator := "~",
    em := { udot := fun _ _ => 0, log10 := fun _ => 0 } }

def c5CM : CM :=
  { cui2info := [("C", { get_new_cui_info "C" "" [] with names := ["xy"] })],
    name2info := [] }

def c5Center : List Token := [{ lower := "a", keep := true }]

def c5Rng : Rng := { floats := [9/10], picks := [0], ints := [] }

/-- Counterexample to C5: a concept with `count_train = 0` (a fresh
record) *does* get its center tokens replaced: with the draw `9/10`
(above `random_replacement_unsupervised = 4/5`),
`_preprocess_center_tokens` vectorizes the synonym `"xy"` instead of
the mention token `"a"` — `bool(cui2info.get(cui))` tests presence of
the dataclass record, not training history. -/
theorem C5_counterexample :
    (dlookup c5CM.cui2info "C").map CUIInfo.count_train = some 0 ∧
    shouldChangeName c5Env c5CM "C" (9 / 10) = true ∧
    (preprocessCenterTokens c5Env c5CM (some "C") c5Center c5Rng).1 ≠
      some (tokens2vecs c5Env (c5Center.map Token.lower)) := by
  refine ⟨by decide, by with_unfolding_all decide, by with_unfolding_all decide⟩

/-- C5 as amended: the replacement gate of `_should_change_name` is
the *presence* of the concept's record in `cui2info` (a dataclass
instance is always truthy), independent of `count_train`; for every
concept absent from `cui2info`, and for every outcome of the random
draws, the center tokens are never replaced. -/
theorem C5_no_replacement_without_record (env : CMEnv) (cm : CM)
    (cui : String) (tokens_center : List Token) (rng : Rng)
    (h : dlookup cm.cui2info cui = none) :
    (preprocessCenterTokens env cm (some cui) tokens_center rng).1 =
      some (tokens2vecs env (tokens_center.map Token.lower)) := by
  cases hpf : rng.popFloat with
  | mk r rng2 => simp [preprocessCenterTokens, hpf, shouldChangeName, h]

/-- Witness for C5's amended statement at a concrete absent cui. -/
theorem C5_witness :
    dlookup c5CM.cui2info "nosuch" = none ∧
    (preprocessCenterTokens c5Env c5CM (some "nosuch") c5Center c5Rng).1 =
      some (tokens2vecs c5Env (c5Center.map Token.lower)) :=
  ⟨by decide,
   C5_no_replacement_without_record c5Env c5CM "nosuch" c5Center c5Rng
     (by decide)⟩

/-! ### C3 — negative updates on fresh concepts -/

theorem updateContextVectors_frame (em : ExtMath) (new : Dict Vec)
    (ct : String) :
    ∀ (m : Dict Vec) (lr : ℚ) (neg : Bool), ct ∉ dkeys new →
      dlookup (updateContextVectors em m new lr neg) ct = dlookup m ct := by
  induction new with
  | nil => intro m lr neg _; simp [updateContextVectors]
  | cons p rest ih =>
    intro m lr neg h
    obtain ⟨k, v⟩ := p
    simp only [dkeys, List.map, List.mem_cons] at h
    push_neg at h
    obtain ⟨hk, hrest⟩ := h
    have hk' : ¬ (k = ct) := fun hh => hk hh.symm
    simp only [updateContextVectors, List.foldl] at ih ⊢
    rw [ih _ lr neg (by simpa [dkeys] using hrest)]
    split
    · split <;> simp [dlookup_dinsert, hk']
    · split <;> simp [dlookup_dinsert, hk']

theorem updateContextVectors_missing_label_negated (em : ExtMath)
    (new : Dict Vec) (ct : String) (vec : Vec) :
    ∀ (m : Dict Vec) (lr : ℚ), (dkeys new).Nodup →
      dlookup new ct = some vec → dlookup m ct = none →
      dlookup (updateContextVectors em m new lr true) ct =
        some (vscale (-1) vec) := by
  induction new with
  | nil => intro m lr _ h _; simp [dlookup] at h
  | cons p rest ih =>
    intro m lr hnd hv hm
    obtain ⟨k, w⟩ := p
    simp only [dkeys, List.map, List.nodup_cons] at hnd
    by_cases hk : k = ct
    · subst hk
      simp only [dlookup, if_pos rfl] at hv
      have hwv : vec = w := (Option.some.inj hv).symm
      subst hwv
      simp only [updateContextVectors, List.foldl]
      have hframe := updateContextVectors_frame em rest k
        (dinsert m k (vscale (-1) vec)) lr true (by simpa [dkeys] using hnd.1)
      simp only [updateContextVectors] at hframe
      rw [hm]
      simpa [dlookup_dinsert] using hframe
    · have hv' : dlookup rest ct = some vec := by
        simpa [dlookup, hk] using hv
      simp only [updateContextVectors, List.foldl] at ih ⊢
      have hm' : ∀ (m' : Dict Vec), dlookup m' ct = none →
          dlookup (match dlookup m' k with
            | some cv =>
              let similarity := em.udot cv w
              if true = true then
                let b := max 0 similarity * lr
                dinsert m' k (vsub (vscale (1 - b) cv) (vscale b w))
              else
                let b := (1 - max 0 similarity) * lr
                dinsert m' k (vadd (vscale (1 - b) cv) (vscale b w))
            | none =>
              if true = true then dinsert m' k (vscale (-1) w)
              else dinsert m' k w) ct = none := by
        intro m' h'
        split <;> simp [dlookup_dinsert, hk, h']
      exact ih _ lr hnd.2 hv' (hm' m hm)

def c3Vocab : Vocab :=
  { vocab := [("t", { vector := some [1], count := 1, index := 0 })],
    index2word := [(0, "t")], vec_index2word := [(0, "t")],
    unigram_table := [0] }

def c3Env : CMEnv :=
  { waf := fun _ => 1, vocab := c3Vocab,
    cnf := { defaultLinkingCfg with
             context_vector_sizes := [("short", 1)],
             context_vector_weights := [("short", 1)] },
    name_separator := "~",
    em := { udot := fun _ _ => 0, log10 := fun _ => 0 } }

def c3CM : CM :=
  { cui2info := [("C", get_new_cui_info "C" "" [])], name2info := [] }

def c3Doc : List Token := [{ lower := "t", keep := true }]

def c3Ent : Entity :=
  { start_index := 0, end_index := 0, detected_name := none,
    link_candidates := [] }

def c3Rng : Rng := { floats := [1/2], picks := [], ints := [] }

def c3RngT : Rng := { floats := [], picks := [], ints := [0] }

/-- Counterexample to C3: for a concept with no stored
`context_vectors` at all, a negative `train` call (and likewise
`train_using_negative_sampling`) stores the newly computed context
vector `[1]` for label `"short"` *as-is*, not its negation `[-1]`. -/
theorem C3_counterexample :
    (dlookup c3CM.cui2info "C").map (fun i => i.context_vectors) = some none ∧
    ((trainCM c3Env c3CM "C" c3Ent c3Doc true [] c3Rng).map
      (fun r => (dlookup r.1.cui2info "C").map (fun i => i.context_vectors)))
      = some (some (some [("short", [1])])) ∧
    ((trainUsingNegativeSampling c3Env c3CM "C" c3RngT).map
      (fun r => (dlookup r.1.cui2info "C").map (fun i => i.context_vectors)))
      = some (some (some [("short", [1])])) ∧
    [(1 : ℚ)] ≠ vscale (-1) [1] := by
  exact ⟨by decide, by with_unfolding_all decide,
         by with_unfolding_all decide, by with_unfolding_all decide⟩

/-- C3 as amended: for a window label missing from a concept's
*non-empty* stored `context_vectors`, a negative update stores the
negation of the new vector (first conjunct, `update_context_vectors`'s
else-branch); but when the concept has no stored `context_vectors` at
all (`None` or empty), `train(negative=True)` stores the whole newly
computed vectors dict as-is, un-negated (second conjunct). -/
theorem C3_negative_update_on_missing_vectors :
    (∀ (em : ExtMath) (m new : Dict Vec) (ct : String) (vec : Vec) (lr : ℚ),
       (dkeys new).Nodup → dlookup new ct = some vec → dlookup m ct = none →
       dlookup (updateContextVectors em m new lr true) ct =
         some (vscale (-1) vec))
    ∧
    (∀ (env : CMEnv) (cm : CM) (cui : String) (ent : Entity)
       (doc : List Token) (names : List String) (rng : Rng)
       (vectors : Dict Vec) (rng1 : Rng) (info : CUIInfo) (lr : ℚ),
       (entityTokens doc ent).length ≠ 0 →
       getContextVectors env cm ent doc (some cui) rng = (some vectors, rng1) →
       dlookup cm.cui2info cui = some info →
       (info.context_vectors = none ∨ info.context_vectors = some []) →
       getLrLinking env.cnf info.count_train = some lr →
       (trainCM env cm cui ent doc true names rng).map
         (fun r => (dlookup r.1.cui2info cui).map (fun i => i.context_vectors))
         = some (some (some vectors))) := by
  constructor
  · intro em m new ct vec lr hnd hv hm
    exact updateContextVectors_missing_label_negated em new ct vec m lr hnd hv hm
  · intro env cm cui ent doc names rng vectors rng1 info lr hne hvec hpre hcv hlr
    simp only [trainCM, if_neg hne, hvec, hpre, hlr]
    rcases hcv with hcv | hcv <;>
      simp [trainTail, hcv, dlookup_dinsert]

/-- Witness for C3's amended statement: the negation on a concrete
missing label of a non-empty stored dict, and the as-is storage on the
concrete fresh-concept run. -/
theorem C3_witness :
    (dlookup ([("long", [2])] : Dict Vec) "short" = none ∧
     dlookup (updateContextVectors { udot := fun _ _ => 0, log10 := fun _ => 0 }
       [("long", [2])] [("short", [5])] 1 true) "short" =
         some (vscale (-1) [5]))
    ∧
    ((trainCM c3Env c3CM "C" c3Ent c3Doc true ["nm"] c3Rng).map
      (fun r => (dlookup r.1.cui2info "C").map (fun i => i.context_vectors)))
      = some (some (some [("short", [1])])) := by
  refine ⟨⟨by decide, ?_⟩, ?_⟩
  · exact C3_negative_update_on_missing_vectors.1
      { udot := fun _ _ => 0, log10 := fun _ => 0 }
      [("long", [2])] [("short", [5])] "short" [5] 1
      (by decide) (by decide) (by decide)
  · exact C3_negative_update_on_missing_vectors.2 c3Env c3CM "C" c3Ent c3Doc
      ["nm"] c3Rng [("short", [1])] { floats := [], picks := [], ints := [] }
      (get_new_cui_info "C" "" []) 1
      (by decide) (by with_unfolding_all decide) (by decide) (Or.inl rfl)
      (by with_unfolding_all decide)

/-! ### C9 — frame conditions of negative training -/

theorem statusGet_count (ni : NameInfo) (cui : String) :
    (ni.statusGet cui).2.count_train = ni.count_train := by
  unfold NameInfo.statusGet; split <;> rfl

theorem negativeNameUpdates_count (cui : String) (names : List String) :
    ∀ (m : Dict NameInfo) (n : String),
      (dlookup (negativeNameUpdates m cui names) n).map NameInfo.count_train
        = (dlookup m n).map NameInfo.count_train := by
  induction names with
  | nil => intro m n; simp [negativeNameUpdates]
  | cons name rest ih =>
    intro m n
    simp only [negativeNameUpdates, List.foldl] at ih ⊢
    rw [ih]
    cases h : dlookup m name with
    | none => simp [h]
    | some ni =>
      have hc := statusGet_count ni cui
      have hPA : ¬ (ST_AUTOMATIC = ST_PRIMARY_NO_DISAMB) := by decide
      by_cases hn : name = n
      · subst hn
        by_cases h1 : (ni.statusGet cui).1 = ST_PRIMARY_NO_DISAMB
        · simp [h, h1, dlookup_dinsert, hc]
        · by_cases h2 : (ni.statusGet cui).1 = ST_AUTOMATIC
          · simp [h, h1, h2, hPA, dlookup_dinsert, hc]
          · simp [h, h1, h2, dlookup_dinsert, hc]
      · by_cases h1 : (ni.statusGet cui).1 = ST_PRIMARY_NO_DISAMB
        · simp [h, h1, dlookup_dinsert, hn]
        · by_cases h2 : (ni.statusGet cui).1 = ST_AUTOMATIC
          · simp [h, h1, h2, hPA, dlookup_dinsert, hn]
          · simp [h, h1, h2, dlookup_dinsert, hn]

/-- C9: `ContextModel.train` with `negative=True` modifies at most the
concepts' `context_vectors` and the `per_cui_status` entries of the
supplied names — for every concept it leaves `count_train` and
`average_confidence` unchanged, and for every name it leaves
`count_train` unchanged. -/
theorem C9_negative_train_frame (env : CMEnv) (cm : CM) (cui : String)
    (ent : Entity) (doc : List Token) (names : List String) (rng : Rng)
    (cm' : CM) (rng' : Rng)
    (hrun : trainCM env cm cui ent doc true names rng = some (cm', rng')) :
    (∀ c, (dlookup cm'.cui2info c).map CUIInfo.count_train
           = (dlookup cm.cui2info c).map CUIInfo.count_train)
    ∧ (∀ c, (dlookup cm'.cui2info c).map CUIInfo.average_confidence
           = (dlookup cm.cui2info c).map CUIInfo.average_confidence)
    ∧ (∀ n, (dlookup cm'.name2info n).map NameInfo.count_train
           = (dlookup cm.name2info n).map NameInfo.count_train) := by
  unfold trainCM at hrun
  by_cases h0 : (entityTokens doc ent).length = 0
  · rw [if_pos h0] at hrun
    have hp := Option.some.inj hrun
    have hcm : cm = cm' := congrArg Prod.fst hp
    subst hcm
    exact ⟨fun c => rfl, fun c => rfl, fun n => rfl⟩
  · rw [if_neg h0] at hrun
    split at hrun
    · exact absurd hrun (by simp)
    · rename_i vectors rng1 hvec
      split at hrun
      · exact absurd hrun (by simp)
      · rename_i info hpre
        split at hrun
        · exact absurd hrun (by simp)
        · rename_i lr hlr
          unfold trainTail at hrun
          simp only [not_true, eq_self_iff_true, if_true, false_and, if_false,
            Option.some.injEq, Prod.mk.injEq] at hrun
          obtain ⟨hcm, -⟩ := hrun
          subst hcm
          refine ⟨?_, ?_, ?_⟩
          · intro c
            by_cases hc : cui = c
            · subst hc; simp [dlookup_dinsert, hpre]
            · simp [dlookup_dinsert, hc]
          · intro c
            by_cases hc : cui = c
            · subst hc; simp [dlookup_dinsert, hpre]
            · simp [dlookup_dinsert, hc]
          · intro n
            exact negativeNameUpdates_count cui names cm.name2info n

def c9Vocab : Vocab :=
  { vocab := [("t", { vector := some [1], count := 1, index := 0 })],
    index2word := [(0, "t")], vec_index2word := [(0, "t")],
    unigram_table := [] }

def c9Env : CMEnv :=
  { waf := fun _ => 1, vocab := c9Vocab,
    cnf := { defaultLinkingCfg with
             context_vector_sizes := [("short", 1)],
             context_vector_weights := [("short", 1)] },
    name_separator := "~",
    em := { udot := fun _ _ => 0, log10 := fun _ => 0 } }

def c9Info : CUIInfo :=
  { get_new_cui_info "C" "" [] with
    names := ["nm"], count_train := 5, average_confidence := 3 }

def c9NI : NameInfo :=
  { get_new_name_info "nm" with
    per_cui_status := [("C", "P")], count_train := 7 }

def c9CM : CM :=
  { cui2info := [("C", c9Info)], name2info := [("nm", c9NI)] }

def c9Doc : List Token := [{ lower := "t", keep := true }]

def c9Ent : Entity :=
  { start_index := 0, end_index := 0, detected_name := none,
    link_candidates := [] }

def c9Rng : Rng := { floats := [1/2], picks := [], ints := [] }

def c9Post : CM :=
  { cui2info := [("C", { c9Info with context_vectors := some [("short", [1])] })],
    name2info := [("nm", { c9NI with per_cui_status := [("C", "PD")] })] }

/-- Witness for C9: a concrete negative training run (tightening the
`P` status of name `"nm"` to `PD` and seeding the context vector)
leaves both training counters and the average confidence unchanged. -/
theorem C9_witness :
    trainCM c9Env c9CM "C" c9Ent c9Doc true ["nm"] c9Rng =
      some (c9Post, { floats := [], picks := [], ints := [] }) ∧
    (dlookup c9Post.cui2info "C").map CUIInfo.count_train
      = (dlookup c9CM.cui2info "C").map CUIInfo.count_train ∧
    (dlookup c9Post.cui2info "C").map CUIInfo.average_confidence
      = (dlookup c9CM.cui2info "C").map CUIInfo.average_confidence ∧
    (dlookup c9Post.name2info "nm").map NameInfo.count_train
      = (dlookup c9CM.name2info "nm").map NameInfo.count_train := by
  have hrun : trainCM c9Env c9CM "C" c9Ent c9Doc true ["nm"] c9Rng =
      some (c9Post, { floats := [], picks := [], ints := [] }) := by
    with_unfolding_all decide
  exact ⟨hrun,
    (C9_negative_train_frame c9Env c9CM "C" c9Ent c9Doc ["nm"] c9Rng
      c9Post _ hrun).1 "C",
    (C9_negative_train_frame c9Env c9CM "C" c9Ent c9Doc ["nm"] c9Rng
      c9Post _ hrun).2.1 "C",
    (C9_negative_train_frame c9Env c9CM "C" c9Ent c9Doc ["nm"] c9Rng
      c9Post _ hrun).2.2 "nm"⟩

/-! ### C2 — dynamic-threshold running mean -/

/-- The pure value computed by one `get_context_vectors` step when no
target cui is supplied (inference-style vectorization draws no
randomness and reads no store state). -/
def ctxStepNoCui (env : CMEnv) (ent : Entity) (doc : List Token)
    (d : Dict Vec) (p : String × Nat) : Dict Vec :=
  let (tl, tc, tr) := getContextTokens ent doc p.2
  let lv := tokens2vecs env (tl.map Token.lower)
  let cv := if env.cnf.context_ignore_center_tokens then []
            else tokens2vecs env (tc.map Token.lower)
  let rv := tokens2vecs env (tr.map Token.lower)
  let values := lv ++ cv ++ rv
  if values = [] then d else dinsert d p.1 (vaverage values)

/-- The pure value of `get_context_vectors` without a target cui. -/
def ctxVecsNoCui (env : CMEnv) (ent : Entity) (doc : List Token) : Dict Vec :=
  env.cnf.context_vector_sizes.foldl (ctxStepNoCui env ent doc) []

theorem gcvStep_none (env : CMEnv) (cm : CM) (ent : Entity)
    (doc : List Token) (d : Dict Vec) (rng : Rng) (p : String × Nat) :
    gcvStep env cm ent doc none (some d, rng) p =
      (some (ctxStepNoCui env ent doc d p), rng) := by
  by_cases hic : env.cnf.context_ignore_center_tokens = true <;>
    simp [gcvStep, ctxStepNoCui, preprocessCenterTokens, hic] <;>
    split <;> rfl

theorem getContextVectors_none (env : CMEnv) (cm : CM) (ent : Entity)
    (doc : List Token) (rng : Rng) :
    getContextVectors env cm ent doc none rng =
      (some (ctxVecsNoCui env ent doc), rng) := by
  have aux : ∀ (sizes : List (String × Nat)) (d : Dict Vec),
      sizes.foldl (gcvStep env cm ent doc none) (some d, rng) =
        (some (sizes.foldl (ctxStepNoCui env ent doc) d), rng) := by
    intro sizes
    induction sizes with
    | nil => intro d; rfl
    | cons p rest ih =>
      intro d
      simp only [List.foldl, gcvStep_none]
      exact ih _
  exact aux env.cnf.context_vector_sizes []

theorem cmSimilarity_fst (env : CMEnv) (cm : CM) (cui : String)
    (ent : Entity) (doc : List Token) (rng : Rng) :
    (cmSimilarity env cm cui ent doc rng).1 =
      cmSimilarityRaw env cm cui (ctxVecsNoCui env ent doc) := by
  simp [cmSimilarity, getContextVectors_none]

theorem cmSimilarityRaw_congr (env : CMEnv) (cm cm2 : CM) (cui : String)
    (v : Dict Vec) (i i2 : CUIInfo)
    (h1 : dlookup cm.cui2info cui = some i)
    (h2 : dlookup cm2.cui2info cui = some i2)
    (hcv : i2.context_vectors = i.context_vectors)
    (hct : i2.count_train = i.count_train) :
    cmSimilarityRaw env cm2 cui v = cmSimilarityRaw env cm cui v := by
  simp [cmSimilarityRaw, h1, h2, hcv, hct]

theorem devalueOthers_frame (em : ExtMath) (cui : String)
    (vectors : Dict Vec) (lr : ℚ) :
    ∀ (others : List String) (c2i c2i' : Dict CUIInfo), cui ∉ others →
      devalueOthers em c2i others vectors lr = some c2i' →
      dlookup c2i' cui = dlookup c2i cui := by
  intro others
  induction others with
  | nil =>
    intro c2i c2i' _ h
    simp only [devalueOthers] at h
    rw [← Option.some.inj h]
  | cons c rest ih =>
    intro c2i c2i' hmem h
    simp only [devalueOthers] at h
    rcases hl : dlookup c2i c with _ | info
    · rw [hl] at h; exact absurd h (by simp)
    · rw [hl] at h
      have hc : c ≠ cui := fun hh => hmem (hh ▸ List.mem_cons_self c rest)
      have hrest : cui ∉ rest := fun hh => hmem (List.mem_cons_of_mem c hh)
      have := ih _ _ hrest h
      rw [this, dlookup_dinsert]
      simp [hc]


theorem cmSimilarityRaw_ne_none (env : CMEnv) (cm : CM) (cui : String)
    (v : Dict Vec) (i : CUIInfo) (h : dlookup cm.cui2info cui = some i) :
    cmSimilarityRaw env cm cui v ≠ none := by
  cases hcv : i.context_vectors with
  | none => simp [cmSimilarityRaw, h, hcv]
  | some cvs =>
    simp only [cmSimilarityRaw, h, hcv]
    split <;> simp

theorem cmSimilarityRaw_fields (env : CMEnv) (cm cm2 : CM) (cui : String)
    (v : Dict Vec)
    (h : (dlookup cm.cui2info cui).map (fun i => (i.context_vectors, i.count_train))
       = (dlookup cm2.cui2info cui).map (fun i => (i.context_vectors, i.count_train))) :
    cmSimilarityRaw env cm cui v = cmSimilarityRaw env cm2 cui v := by
  unfold cmSimilarityRaw
  cases h1 : dlookup cm.cui2info cui with
  | none =>
    cases h2 : dlookup cm2.cui2info cui with
    | none => rfl
    | some i2 => rw [h1, h2] at h; simp at h
  | some i1 =>
    cases h2 : dlookup cm2.cui2info cui with
    | none => rw [h1, h2] at h; simp at h
    | some i2 =>
      rw [h1, h2] at h
      simp only [Option.map_some'] at h
      have hp := Option.some.inj h
      have hcv : i1.context_vectors = i2.context_vectors := congrArg Prod.fst hp
      have hct : i1.count_train = i2.count_train := congrArg Prod.snd hp
      dsimp only
      rw [hcv, hct]

theorem trainTail_positive_avg (env : CMEnv) (cm : CM) (cui : String)
    (ent : Entity) (doc : List Token) (names : List String) (rng1 : Rng)
    (vectors : Dict Vec) (info : CUIInfo) (lr : ℚ) (cm' : CM) (rng' : Rng)
    (hdyn : env.cnf.calculate_dynamic_threshold = true)
    (h : trainTail env cm cui ent doc false names rng1 vectors info lr
          = some (cm', rng')) :
    ∃ s, cmSimilarityRaw env cm' cui (ctxVecsNoCui env ent doc) = some s ∧
      (dlookup cm'.cui2info cui).map CUIInfo.average_confidence
        = some (getUpdatedAverageConfidence info.average_confidence
                 (info.count_train + 1) s) := by
  unfold trainTail at h
  simp only [Bool.false_eq_true, if_false, not_false_iff, not_false_eq_true,
    true_and, false_and, hdyn, eq_self_iff_true, if_true,
    cmSimilarity_fst] at h
  split at h
  · exact absurd h (by simp)
  · rename_i n2i2 hn2i
    split at h
    case isTrue hdev =>
      split at h
      · exact absurd h (by simp)
      · rename_i ciX hciX
        split at h
        · exact absurd h (by simp)
        · rename_i allc hallc
          split at h
          · exact absurd h (by simp)
          · rename_i c2i hdev2
            simp only [Option.some.injEq, Prod.mk.injEq] at h
            obtain ⟨hcm, hrng⟩ := h
            subst hcm
            split at hciX
            · rename_i hnone
              exact absurd hnone (cmSimilarityRaw_ne_none env _ cui _ _
                (by simp only [dlookup_dinsert, eq_self_iff_true, if_true]; rfl))
            · rename_i s heqS
              simp only [dlookup_dinsert, eq_self_iff_true, if_true]
                at hciX hdev2 hallc ⊢
              have hci := (Option.some.inj hciX).symm
              subst hci
              rw [heqS] at hdev2
              dsimp only at hdev2
              have hfr := devalueOthers_frame env.em cui vectors lr _ _ _
                (by simp) hdev2
              refine ⟨s, ?_, ?_⟩
              · refine (cmSimilarityRaw_fields env _ _ cui _ ?_).trans heqS
                dsimp only
                rw [hfr]
                simp [dlookup_dinsert]
              · dsimp only
                rw [hfr]
                simp [dlookup_dinsert]
    case isFalse hdev =>
      split at h
      · rename_i hnone
        exact absurd hnone (cmSimilarityRaw_ne_none env _ cui _ _
          (by simp only [dlookup_dinsert, eq_self_iff_true, if_true]; rfl))
      · rename_i s heqS
        split at h
        · rename_i hdl
          rw [dlookup_dinsert] at hdl
          simp at hdl
        · rename_i ci hci
          rw [dlookup_dinsert] at hci
          simp only [eq_self_iff_true, if_true, Option.some.injEq] at hci
          subst hci
          simp only [Option.some.injEq, Prod.mk.injEq] at h
          obtain ⟨hcm, hrng⟩ := h
          subst hcm
          refine ⟨s, ?_, ?_⟩
          · refine (cmSimilarityRaw_fields env _ _ cui _ ?_).trans heqS
            dsimp only
            simp [dlookup_dinsert]
          · dsimp only
            simp [dlookup_dinsert]

/-- C2 as amended: in `ContextModel.train` with `negative=False` and
`calculate_dynamic_threshold` enabled, the new `average_confidence` is
the running mean computed with the *post-increment* training count: if
the concept's `count_train` before the call is `n`, its
`average_confidence` before the call is `a`, and `s` is the similarity
computed after the vector update (equivalently, against the post-call
store, whose similarity-relevant fields the confidence update leaves
untouched), then after the call
`average_confidence = (a*(n+1) + s) / (n+2)` — the source increments
`count_train` *before* passing it to
`get_updated_average_confidence`. -/
theorem C2_running_mean_uses_incremented_count (env : CMEnv) (cm : CM)
    (cui : String) (ent : Entity) (doc : List Token) (names : List String)
    (rng : Rng) (cm' : CM) (rng' : Rng) (info : CUIInfo) (sim : ℚ)
    (hdyn : env.cnf.calculate_dynamic_threshold = true)
    (hpre : dlookup cm.cui2info cui = some info)
    (hne : (entityTokens doc ent).length ≠ 0)
    (hrun : trainCM env cm cui ent doc false names rng = some (cm', rng'))
    (hsim : (cmSimilarity env cm' cui ent doc rng').1 = some sim) :
    (dlookup cm'.cui2info cui).map CUIInfo.average_confidence
      = some ((info.average_confidence * ((info.count_train : ℚ) + 1) + sim)
              / ((info.count_train : ℚ) + 2)) := by
  unfold trainCM at hrun
  rw [if_neg hne] at hrun
  split at hrun
  · exact absurd hrun (by simp)
  · rename_i vectors rng1 hvec
    split at hrun
    · exact absurd hrun (by simp)
    · rename_i info0 hpre0
      have hio : info0 = info := Option.some.inj (hpre0.symm.trans hpre)
      subst hio
      split at hrun
      · exact absurd hrun (by simp)
      · rename_i lr hlr
        obtain ⟨s, hS, havg⟩ := trainTail_positive_avg env cm cui ent doc
          names rng1 vectors info0 lr cm' rng' hdyn hrun
        rw [cmSimilarity_fst] at hsim
        have hss : s = sim := Option.some.inj (hS.symm.trans hsim)
        rw [havg, hss]
        simp only [getUpdatedAverageConfidence, Option.some.injEq]
        push_cast
        ring_nf

def c2Vocab : Vocab :=
  { vocab := [("t", { vector := some [1], count := 1, index := 0 })],
    index2word := [(0, "t")], vec_index2word := [(0, "t")],
    unigram_table := [0] }

def c2Env : CMEnv :=
  { waf := fun _ => 1, vocab := c2Vocab,
    cnf := { defaultLinkingCfg with
             context_vector_sizes := [("short", 1)],
             context_vector_weights := [("short", 1)],
             calculate_dynamic_threshold := true },
    name_separator := "~",
    em := { udot := fun _ _ => 1, log10 := fun _ => 0 } }

def c2CM : CM :=
  { cui2info := [("C", get_new_cui_info "C" "" [])], name2info := [] }

def c2Doc : List Token := [{ lower := "t", keep := true }]

def c2Ent : Entity :=
  { start_index := 0, end_index := 0, detected_name := none,
    link_candidates := [] }

def c2Rng : Rng := { floats := [1/2], picks := [], ints := [] }

/-- The concrete post-state of the C2 run: one positive `train` on a
fresh concept under `calculate_dynamic_threshold`, with `udot ≡ 1`. -/
def c2Info1 : CUIInfo :=
  { get_new_cui_info "C" "" [] with
    count_train := 1, context_vectors := some [("short", [1])],
    average_confidence := 1/2 }

def c2Post : CM := { cui2info := [("C", c2Info1)], name2info := [] }

def c2Rng1 : Rng := { floats := [], picks := [], ints := [] }

/-- Counterexample to C2: a fresh concept (`count_train = 0`,
`average_confidence = 0`) trained once positively with the post-update
similarity evaluating to `1` ends with `average_confidence = 1/2`, not
the claimed `(a*n + s)/(n+1) = (0*0 + 1)/(0+1) = 1`: the source
increments `count_train` *before* computing the running mean. -/
theorem C2_counterexample :
    (dlookup c2CM.cui2info "C").map
      (fun i => (i.count_train, i.average_confidence)) = some (0, 0) ∧
    ((trainCM c2Env c2CM "C" c2Ent c2Doc false [] c2Rng).map
      (fun r => ((cmSimilarity c2Env r.1 "C" c2Ent c2Doc r.2).1,
                 (dlookup r.1.cui2info "C").map CUIInfo.average_confidence)))
      = some (some 1, some (1/2)) ∧
    ((1 : ℚ)/2) ≠ (0 * 0 + 1) / (0 + 1) := by
  refine ⟨by decide, ?_, by with_unfolding_all decide⟩
  with_unfolding_all decide

theorem C2_witness :
    (dlookup c2Post.cui2info "C").map CUIInfo.average_confidence
      = some (((get_new_cui_info "C" "" []).average_confidence *
               (((get_new_cui_info "C" "" []).count_train : ℚ) + 1) + 1)
              / (((get_new_cui_info "C" "" []).count_train : ℚ) + 2)) :=
  C2_running_mean_uses_incremented_count c2Env c2CM "C" c2Ent c2Doc []
    c2Rng c2Post c2Rng1 (get_new_cui_info "C" "" []) 1
    rfl rfl (by decide) (by with_unfolding_all rfl)
    (by with_unfolding_all rfl)

theorem dlookup_cons {α : Type} (q : String × α) (rest : Dict α) (k : String) :
    dlookup (q :: rest) k = if q.1 = k then some q.2 else dlookup rest k := by
  obtain ⟨a, b⟩ := q; rfl

/-- `del d[k]` on a dict not holding `k` is a no-op. -/
theorem ddelete_of_lookup_none {α : Type} (d : Dict α) (k : String)
    (h : dlookup d k = none) : ddelete d k = d := by
  induction d with
  | nil => rfl
  | cons hd tl ih =>
    obtain ⟨k', v⟩ := hd
    simp only [dlookup] at h
    by_cases hk : k' = k
    · rw [if_pos hk] at h; exact absurd h (by simp)
    · rw [if_neg hk] at h
      simp [ddelete, hk, ih h]

/-- The status-tightening map of `_remove_names` (and of claim C6):
`'A'` becomes `'N'`, `'P'` becomes `'PD'`, all else kept. -/
def tightenStatus (p : String × String) : String × String :=
  if p.2 = "A" then (p.1, "N")
  else if p.2 = "P" then (p.1, "PD")
  else p

theorem tightenStatus_fst (p : String × String) :
    (tightenStatus p).1 = p.1 := by
  obtain ⟨k, s⟩ := p
  unfold tightenStatus
  split
  · rfl
  · split <;> rfl

theorem tightenStatus_idem (p : String × String) :
    tightenStatus (tightenStatus p) = tightenStatus p := by
  obtain ⟨k, s⟩ := p
  by_cases hA : s = "A"
  · simp [tightenStatus, hA]
  · by_cases hP : s = "P" <;> simp [tightenStatus, hA, hP]

theorem dlookup_map_tighten_none (l : Dict String) (k : String)
    (h : dlookup l k = none) :
    dlookup (l.map tightenStatus) k = none := by
  induction l with
  | nil => rfl
  | cons p rest ih =>
    rw [dlookup_cons] at h
    rw [List.map_cons, dlookup_cons, tightenStatus_fst]
    by_cases hk : p.1 = k
    · rw [if_pos hk] at h; exact absurd h (by simp)
    · rw [if_neg hk] at h ⊢
      exact ih h

/-- Spec-side (claim C6) reading of the removal effect on one
`name2info` entry: the `cui` entry is dropped from `per_cui_status`,
and the record is deleted when no concept remains. -/
def claimedDeletion (cui : String) : Option NameInfo → Option NameInfo
  | none => none
  | some info =>
    let psc := ddelete info.per_cui_status cui
    if psc.length = 0 then none
    else some { info with per_cui_status := psc }

/-- Spec-side (claim C6) status tightening: when exactly one concept
remains for the name, that concept's status is tightened via
`tightenStatus`; otherwise nothing changes. -/
def claimedTighten : Option NameInfo → Option NameInfo
  | none => none
  | some info =>
    if info.per_cui_status.length = 1 then
      some { info with
             per_cui_status := info.per_cui_status.map tightenStatus }
    else some info

/-- Spec-side (claim C6) per-name effect of `remove_names`. -/
def claimedNameRemoval (cui : String) (o : Option NameInfo) :
    Option NameInfo :=
  claimedTighten (claimedDeletion cui o)

theorem removalBlock_frame (n2i : Dict NameInfo) (cui name j : String)
    (h : ¬ name = j) :
    dlookup (removalBlock n2i cui name) j = dlookup n2i j := by
  unfold removalBlock
  split
  · rfl
  · split <;> (dsimp only; split <;> simp [dlookup_ddelete, dlookup_dinsert, h])

theorem tightenBlock_frame (n2i : Dict NameInfo) (name j : String)
    (h : ¬ name = j) :
    dlookup (tightenBlock n2i name) j = dlookup n2i j := by
  unfold tightenBlock
  split
  · rfl
  · split
    · simp [dlookup_dinsert, h]
    · rfl

theorem removeNameStep_frame (n2i : Dict NameInfo) (cui name j : String)
    (h : ¬ name = j) :
    dlookup (removeNameStep n2i cui name) j = dlookup n2i j := by
  unfold removeNameStep
  rw [tightenBlock_frame _ _ _ h, removalBlock_frame _ _ _ _ h,
      removalBlock_frame _ _ _ _ h]

theorem removalBlock_self (n2i : Dict NameInfo) (cui name : String) :
    dlookup (removalBlock n2i cui name) name
      = claimedDeletion cui (dlookup n2i name) := by
  unfold removalBlock claimedDeletion
  cases hl : dlookup n2i name with
  | none => exact hl
  | some info =>
    by_cases hc : (dlookup info.per_cui_status cui).isSome
    · by_cases hz : (ddelete info.per_cui_status cui).length = 0 <;>
        simp [hc, hz, dlookup_ddelete, dlookup_dinsert]
    · have hnone : dlookup info.per_cui_status cui = none :=
        Option.not_isSome_iff_eq_none.mp hc
      have hdd : ddelete info.per_cui_status cui = info.per_cui_status :=
        ddelete_of_lookup_none _ _ hnone
      by_cases hz : info.per_cui_status.length = 0 <;>
        simp [hc, hdd, hz, dlookup_ddelete, dlookup_dinsert]

theorem tightenBlock_self (n2i : Dict NameInfo) (name : String) :
    dlookup (tightenBlock n2i name) name
      = claimedTighten (dlookup n2i name) := by
  unfold tightenBlock claimedTighten
  cases hl : dlookup n2i name with
  | none => exact hl
  | some info =>
    by_cases h1 : info.per_cui_status.length = 1 <;>
      simp [h1, dlookup_dinsert, hl, tightenStatus]

theorem claimedDeletion_psc (cui : String) (o : Option NameInfo)
    (info : NameInfo) (h : claimedDeletion cui o = some info) :
    dlookup info.per_cui_status cui = none ∧
      ¬ info.per_cui_status.length = 0 := by
  cases o with
  | none => exact absurd h (by simp [claimedDeletion])
  | some i =>
    simp only [claimedDeletion] at h
    by_cases hz : (ddelete i.per_cui_status cui).length = 0
    · rw [if_pos hz] at h; exact absurd h (by simp)
    · rw [if_neg hz] at h
      have hi := (Option.some.inj h).symm
      subst hi
      exact ⟨by simp [dlookup_ddelete], hz⟩

theorem claimedDeletion_idem (cui : String) (o : Option NameInfo) :
    claimedDeletion cui (claimedDeletion cui o) = claimedDeletion cui o := by
  cases hd : claimedDeletion cui o with
  | none => rfl
  | some info =>
    obtain ⟨hn, hz⟩ := claimedDeletion_psc cui o info hd
    simp [claimedDeletion, ddelete_of_lookup_none _ _ hn, hz]

theorem claimedNameRemoval_idem (cui : String) (o : Option NameInfo) :
    claimedNameRemoval cui (claimedNameRemoval cui o)
      = claimedNameRemoval cui o := by
  unfold claimedNameRemoval
  cases hd : claimedDeletion cui o with
  | none => rfl
  | some info =>
    obtain ⟨hn, hz⟩ := claimedDeletion_psc cui o info hd
    by_cases h1 : info.per_cui_status.length = 1
    · have hmn : dlookup (info.per_cui_status.map tightenStatus) cui = none :=
        dlookup_map_tighten_none _ _ hn
      have hdd := ddelete_of_lookup_none _ _ hmn
      have hidem : (info.per_cui_status.map tightenStatus).map tightenStatus
          = info.per_cui_status.map tightenStatus := by
        rw [List.map_map]
        exact List.map_congr_left (fun a _ => tightenStatus_idem a)
      simp [claimedTighten, claimedDeletion, h1, hdd, hz, hidem,
            List.length_map]
    · simp [claimedTighten, claimedDeletion, h1,
            ddelete_of_lookup_none _ _ hn, hz]

theorem removeNameStep_self (n2i : Dict NameInfo) (cui name : String) :
    dlookup (removeNameStep n2i cui name) name
      = claimedNameRemoval cui (dlookup n2i name) := by
  unfold removeNameStep claimedNameRemoval
  rw [tightenBlock_self, removalBlock_self, removalBlock_self,
      claimedDeletion_idem]

theorem removeNames_fold (cui : String) (names : List String) :
    ∀ (m : Dict NameInfo) (n : String),
      dlookup (names.foldl (fun m' nm => removeNameStep m' cui nm) m) n
        = if n ∈ names then claimedNameRemoval cui (dlookup m n)
          else dlookup m n := by
  induction names with
  | nil => intro m n; simp
  | cons a rest ih =>
    intro m n
    simp only [List.foldl_cons]
    rw [ih]
    by_cases ha : n = a
    · subst ha
      by_cases hr : n ∈ rest
      · simp [hr, removeNameStep_self, claimedNameRemoval_idem]
      · simp [hr, removeNameStep_self]
    · have hfr := removeNameStep_frame m cui a n (fun h => ha h.symm)
      by_cases hr : n ∈ rest <;> simp [hr, ha, hfr]

/-- C6: `remove_names(cui, names)` acts on `name2info` exactly per-name
as claimed: a listed name that exists loses the `cui` entry of its
`per_cui_status`; the `NameInfo` is deleted when its `per_cui_status`
becomes empty; when exactly one concept remains afterwards its status
is tightened (`'A'` to `'N'`, `'P'` to `'PD'`, others untouched); and
names not listed (or absent) are unchanged. -/
theorem C6_remove_names_per_name (cdb : CDB) (cui : String)
    (names : List String) (n : String) :
    dlookup (cdb.removeNames cui names).name2info n
      = if n ∈ names then claimedNameRemoval cui (dlookup cdb.name2info n)
        else dlookup cdb.name2info n := by
  unfold CDB.removeNames
  exact removeNames_fold cui names cdb.name2info n

theorem argmaxIdx_lt : ∀ (l : List ℚ), l ≠ [] → argmaxIdx l < l.length := by
  intro l
  induction l with
  | nil => intro h; exact absurd rfl h
  | cons x rest ih =>
    intro _
    simp only [argmaxIdx]
    cases hy : rest.get? (argmaxIdx rest) with
    | none => simp
    | some y =>
      obtain ⟨hlt, _⟩ := List.get?_eq_some.mp hy
      dsimp only
      split
      · simpa using Nat.succ_lt_succ hlt
      · simp

theorem argmaxIdx_le : ∀ (l : List ℚ) (s : ℚ),
    s ∈ l → s ≤ l.getD (argmaxIdx l) 0 := by
  intro l
  induction l with
  | nil => intro s hs; simp at hs
  | cons x rest ih =>
    intro s hs
    simp only [argmaxIdx]
    cases hy : rest.get? (argmaxIdx rest) with
    | none =>
      have hle : rest.length ≤ argmaxIdx rest := List.get?_eq_none.mp hy
      rcases rest with _ | ⟨a, b⟩
      · simp at hs
        simp [hs]
      · exact absurd hle (Nat.not_le.mpr (argmaxIdx_lt _ (by simp)))
    | some y =>
      have hgd : rest.getD (argmaxIdx rest) 0 = y := by
        rw [List.getD_eq_getElem?_getD, ← List.get?_eq_getElem?, hy]
        rfl
      dsimp only
      split
      · rename_i hxy
        have hg2 : (x :: rest).getD (argmaxIdx rest + 1) 0
            = rest.getD (argmaxIdx rest) 0 := by
          simp [List.getD_eq_getElem?_getD]
        rw [hg2, hgd]
        rcases List.mem_cons.mp hs with rfl | hmem
        · exact le_of_lt hxy
        · exact hgd ▸ ih s hmem
      · rename_i hxy
        have hg0 : (x :: rest).getD 0 0 = x := rfl
        rw [hg0]
        rcases List.mem_cons.mp hs with rfl | hmem
        · exact le_refl s
        · exact (hgd ▸ ih s hmem).trans (le_of_not_lt hxy)

theorem simsOf_sound (env : CMEnv) (cm : CM) (vectors : Dict Vec) :
    ∀ (cuis : List String) (sims : List ℚ),
      simsOf env cm vectors cuis = some sims →
      sims.length = cuis.length ∧
        ∀ c ∈ cuis, (dlookup cm.cui2info c).isSome := by
  intro cuis
  induction cuis with
  | nil =>
    intro sims h
    simp only [simsOf, Option.some.injEq] at h
    subst h
    exact ⟨rfl, by simp⟩
  | cons c rest ih =>
    intro sims h
    simp only [simsOf] at h
    cases hr : cmSimilarityRaw env cm c vectors with
    | none => rw [hr] at h; exact absurd h (by simp)
    | some s =>
      rw [hr] at h
      cases ht : simsOf env cm vectors rest with
      | none => rw [ht] at h; exact absurd h (by simp)
      | some tl =>
        rw [ht] at h
        simp only [Option.map_some', Option.some.injEq] at h
        subst h
        obtain ⟨ih1, ih2⟩ := ih tl ht
        refine ⟨by simp [ih1], ?_⟩
        intro d hd
        rcases List.mem_cons.mp hd with rfl | hd'
        · unfold cmSimilarityRaw at hr
          cases hl : dlookup cm.cui2info d with
          | none => rw [hl] at hr; exact absurd hr (by simp)
          | some _ => simp
        · exact ih2 d hd'

theorem cntsOf_of_lookups (c2i : Dict CUIInfo) :
    ∀ (cuis : List String),
      (∀ c ∈ cuis, (dlookup c2i c).isSome) →
      ∃ cnts, cntsOf c2i cuis = some cnts ∧ cnts.length = cuis.length := by
  intro cuis
  induction cuis with
  | nil => intro _; exact ⟨[], rfl, rfl⟩
  | cons c rest ih =>
    intro h
    obtain ⟨i, hi⟩ :=
      Option.isSome_iff_exists.mp (h c (List.mem_cons_self c rest))
    obtain ⟨cnts, hc, hl⟩ := ih (fun d hd => h d (List.mem_cons_of_mem c hd))
    exact ⟨i.count_train :: cnts, by simp [cntsOf, hi, hc], by simp [hl]⟩

/-- C4 as amended: with no detected name the linker disambiguates
under the literal sentinel `'unk-unk'`, and this succeeds by pure
(boosted) similarity ranking only when `prefer_primary_name ≤ 0` (the
primary-name boost would read `name2info['unk-unk']` with a plain
subscript and raise): given a non-empty candidate list whose
similarities all compute, the sentinel disambiguation returns the
candidate at the argmax of the boosted similarities, that similarity
is maximal among them, and the whole inference step raises nothing. -/
theorem C4_sentinel_disambiguation (env : CMEnv) (cm : CM) (doc : List Token)
    (ent : Entity) (rng : Rng) (vectors : Dict Vec) (rng1 : Rng)
    (sims : List ℚ)
    (hcand : ent.link_candidates ≠ [])
    (hname : ent.detected_name = none)
    (hppn : env.cnf.prefer_primary_name ≤ 0)
    (hfbd : env.cnf.filter_before_disamb = false)
    (hgcv : getContextVectors env cm ent doc none rng = (some vectors, rng1))
    (hsims : simsOf env cm vectors ent.link_candidates = some sims) :
    ∃ sims',
      disambiguateCM env cm ent.link_candidates ent "unk-unk" doc rng
        = some ((some (ent.link_candidates.getD (argmaxIdx sims') ""),
                 sims'.getD (argmaxIdx sims') 0), cm, rng1) ∧
      (∀ s ∈ sims', s ≤ sims'.getD (argmaxIdx sims') 0) ∧
      sims'.length = ent.link_candidates.length ∧
      processEntityInference env cm doc ent rng ≠ none := by
  obtain ⟨hslen, hlk⟩ := simsOf_sound env cm vectors ent.link_candidates
    sims hsims
  have hstep : ∃ sims',
      preprocessDisambSims env cm "unk-unk" ent.link_candidates sims
        = some (sims', cm) ∧
      sims'.length = ent.link_candidates.length := by
    unfold preprocessDisambSims
    rw [if_neg (not_lt.mpr hppn)]
    dsimp only
    by_cases hpfc : 0 < env.cnf.prefer_frequent_concepts
    · rw [if_pos hpfc]
      obtain ⟨cnts, hcnts, hclen⟩ := cntsOf_of_lookups cm.cui2info
        ent.link_candidates hlk
      rw [hcnts]
      rcases hc : cnts with _ | ⟨c0, cr⟩
      · rw [hc] at hclen
        exact absurd (List.length_eq_zero.mp hclen.symm) hcand
      · dsimp only
        rw [List.min?_cons]
        refine ⟨_, rfl, ?_⟩
        rw [List.length_zipWith, List.length_map, ← hc, hclen, hslen,
            min_self]
    · rw [if_neg hpfc]
      exact ⟨sims, rfl, hslen⟩
  obtain ⟨sims', hpre, hlen'⟩ := hstep
  have hne' : sims' ≠ [] := by
    intro h0
    rw [h0] at hlen'
    exact hcand (List.length_eq_zero.mp hlen'.symm)
  have hdis : disambiguateCM env cm ent.link_candidates ent "unk-unk" doc rng
      = some ((some (ent.link_candidates.getD (argmaxIdx sims') ""),
               sims'.getD (argmaxIdx sims') 0), cm, rng1) := by
    unfold disambiguateCM
    rw [hgcv, hfbd]
    simp only [Bool.false_eq_true, if_false, if_neg hcand, hsims, hpre]
  have hmx : argmaxIdx sims' < ent.link_candidates.length :=
    hlen' ▸ argmaxIdx_lt sims' hne'
  have hmem : ent.link_candidates.getD (argmaxIdx sims') ""
      ∈ ent.link_candidates := by
    rw [List.getD_eq_getElem _ _ hmx]
    exact List.getElem_mem _
  refine ⟨sims', hdis, fun s hsm => argmaxIdx_le sims' s hsm, hlen', ?_⟩
  unfold processEntityInference
  rw [if_neg hcand, hname]
  dsimp only
  rw [hdis]
  dsimp only
  by_cases hemp : ent.link_candidates.getD (argmaxIdx sims') "" = "" ∨
      ¬ checkFilters env.cnf (ent.link_candidates.getD (argmaxIdx sims') "")
  · rw [if_pos hemp]; exact Option.noConfusion
  · rw [if_neg hemp]
    have hcs : ∃ b, checkSimilarity env.cnf cm.cui2info
        (ent.link_candidates.getD (argmaxIdx sims') "")
        (sims'.getD (argmaxIdx sims') 0) = some b := by
      unfold checkSimilarity
      split
      · exact ⟨_, rfl⟩
      · split
        · obtain ⟨i, hi⟩ := Option.isSome_iff_exists.mp
            (hlk _ hmem)
          rw [hi]
          exact ⟨_, rfl⟩
        · exact ⟨_, rfl⟩
    obtain ⟨b, hb⟩ := hcs
    rw [hb]
    dsimp only
    split <;> exact Option.noConfusion

def c4Vocab : Vocab :=
  { vocab := [("t", { vector := some [1], count := 1, index := 0 })],
    index2word := [(0, "t")], vec_index2word := [(0, "t")],
    unigram_table := [0] }

def c4Env : CMEnv :=
  { waf := fun _ => 1, vocab := c4Vocab,
    cnf := { defaultLinkingCfg with
             context_vector_sizes := [("short", 1)],
             context_vector_weights := [("short", 1)] },
    name_separator := "~",
    em := { udot := fun _ _ => 1, log10 := fun _ => 0 } }

def c4Info : CUIInfo :=
  { get_new_cui_info "C" "" [] with
    count_train := 1, context_vectors := some [("short", [1])] }

def c4CM : CM :=
  { cui2info := [("C", c4Info)], name2info := [] }

def c4Doc : List Token := [{ lower := "t", keep := true }]

def c4Ent : Entity :=
  { start_index := 0, end_index := 0, detected_name := none,
    link_candidates := ["C"] }

def c4Rng : Rng := { floats := [], picks := [], ints := [] }

/-- The same setting with the primary-name boost disabled, for the
amended statement. -/
def c4EnvB : CMEnv :=
  { c4Env with cnf := { c4Env.cnf with prefer_primary_name := 0 } }

/-- Counterexample to C4: a mention with one candidate, no detected
name, the *default* configuration (`prefer_primary_name = 7/20 > 0`)
and a positive candidate similarity makes `_process_entity_inference`
raise (result `none`): the primary-name boost reads
`self.name2info['unk-unk']` with a plain subscript, and the sentinel
is not a real `name2info` entry — so the sentinel disambiguation does
*not* always succeed by pure similarity ranking. -/
theorem C4_counterexample :
    c4Ent.link_candidates ≠ [] ∧
    c4Ent.detected_name = none ∧
    c4Env.cnf.prefer_primary_name > 0 ∧
    simsOf c4Env c4CM [("short", [1])] c4Ent.link_candidates = some [1] ∧
    (1 : ℚ) > 0 ∧
    dlookup c4CM.name2info "unk-unk" = none ∧
    processEntityInference c4Env c4CM c4Doc c4Ent c4Rng = none := by
  refine ⟨by decide, rfl, by with_unfolding_all decide, ?_,
    by with_unfolding_all decide, rfl, ?_⟩
  · with_unfolding_all decide
  · with_unfolding_all decide

theorem C4_witness :
    ∃ sims',
      disambiguateCM c4EnvB c4CM c4Ent.link_candidates c4Ent "unk-unk" c4Doc
          c4Rng
        = some ((some (c4Ent.link_candidates.getD (argmaxIdx sims') ""),
                 sims'.getD (argmaxIdx sims') 0), c4CM, c4Rng) ∧
      (∀ s ∈ sims', s ≤ sims'.getD (argmaxIdx sims') 0) ∧
      sims'.length = c4Ent.link_candidates.length ∧
      processEntityInference c4EnvB c4CM c4Doc c4Ent c4Rng ≠ none :=
  C4_sentinel_disambiguation c4EnvB c4CM c4Doc c4Ent c4Rng
    [("short", [1])] c4Rng [1]
    (by decide) rfl (by with_unfolding_all decide) rfl
    (by with_unfolding_all rfl) (by with_unfolding_all rfl)

theorem lookup_mem {α : Type} (d : Dict α) (k : String) (v : α)
    (h : dlookup d k = some v) : (k, v) ∈ d := by
  induction d with
  | nil => exact absurd h (by simp [dlookup])
  | cons p rest ih =>
    obtain ⟨k', v'⟩ := p
    simp only [dlookup] at h
    by_cases hk : k' = k
    · rw [if_pos hk] at h
      have hv := Option.some.inj h
      subst hv
      subst hk
      exact List.mem_cons_self _ _
    · rw [if_neg hk] at h
      exact List.mem_cons_of_mem _ (ih h)

theorem mem_dkeys_of_lookup {α : Type} (d : Dict α) (k : String) (v : α)
    (h : dlookup d k = some v) : k ∈ dkeys d := by
  have := lookup_mem d k v h
  exact List.mem_map.mpr ⟨(k, v), this, rfl⟩

theorem mem_setAdd (l : List String) (x y : String) :
    y ∈ setAdd l x ↔ y ∈ l ∨ y = x := by
  unfold setAdd
  split
  · rename_i hx
    constructor
    · exact Or.inl
    · rintro (h | rfl)
      · exact h
      · exact hx
  · simp

theorem mem_setUnion : ∀ (xs l : List String) (y : String),
    y ∈ setUnion l xs ↔ y ∈ l ∨ y ∈ xs := by
  intro xs
  induction xs with
  | nil => intro l y; simp [setUnion]
  | cons a rest ih =>
    intro l y
    have : setUnion l (a :: rest) = setUnion (setAdd l a) rest := rfl
    rw [this, ih, mem_setAdd]
    simp only [List.mem_cons]
    tauto

theorem mem_unionFold : ∀ (ls : List (List String)) (init : List String)
    (y : String), y ∈ ls.foldl setUnion init ↔ y ∈ init ∨ ∃ l ∈ ls, y ∈ l := by
  intro ls
  induction ls with
  | nil => intro init y; simp
  | cons a rest ih =>
    intro init y
    rw [List.foldl_cons, ih, mem_setUnion]
    simp only [List.mem_cons]
    constructor
    · rintro (⟨h | h⟩ | ⟨l, hl, hy⟩)
      · exact Or.inl h
      · exact Or.inr ⟨a, Or.inl rfl, h⟩
      · exact Or.inr ⟨l, Or.inr hl, hy⟩
    · rintro (h | ⟨l, hl | hl, hy⟩)
      · exact Or.inl (Or.inl h)
      · exact Or.inl (Or.inr (hl ▸ hy))
      · exact Or.inr ⟨l, hl, hy⟩

theorem mem_namesToKeep (cdb : CDB) (cuis : List String) (n : String) :
    n ∈ namesToKeep cdb cuis ↔
      ∃ c ∈ cuis, ∃ i, dlookup cdb.cui2info c = some i ∧ n ∈ i.names := by
  unfold namesToKeep
  rw [mem_unionFold]
  simp only [List.not_mem_nil, false_or, List.mem_map, List.mem_filterMap]
  constructor
  · rintro ⟨l, ⟨i, ⟨c, hc, hi⟩, rfl⟩, hn⟩
    exact ⟨c, hc, i, hi, hn⟩
  · rintro ⟨c, hc, i, hi, hn⟩
    exact ⟨i.names, ⟨i, ⟨c, hc, hi⟩, rfl⟩, hn⟩

theorem cuisOfNames_some (n2i : Dict NameInfo) :
    ∀ (names : List String),
      (∀ n ∈ names, (dlookup n2i n).isSome) →
      ∃ l, cuisOfNames n2i names = some l ∧
        ∀ n ∈ names, ∀ ni, dlookup n2i n = some ni →
          ∀ c ∈ dkeys ni.per_cui_status, c ∈ l := by
  intro names
  induction names with
  | nil => intro _; exact ⟨[], rfl, by simp⟩
  | cons nm rest ih =>
    intro h
    obtain ⟨ni, hni⟩ := Option.isSome_iff_exists.mp
      (h nm (List.mem_cons_self nm rest))
    obtain ⟨l, hl, hcov⟩ := ih (fun x hx => h x (List.mem_cons_of_mem nm hx))
    refine ⟨dkeys ni.per_cui_status ++ l, by simp [cuisOfNames, hni, hl], ?_⟩
    intro x hx nix hnix c hc
    rcases List.mem_cons.mp hx with rfl | hx'
    · have : nix = ni := Option.some.inj (hnix.symm.trans hni)
      subst this
      exact List.mem_append_left _ hc
    · exact List.mem_append_right _ (hcov x hx' nix hnix c hc)

theorem rebuild_lookup {α : Type} (src : Dict α) :
    ∀ (keys : List String) (init : Dict α) (k : String),
      dlookup (rebuildFrom src keys init) k
      = if k ∈ keys ∧ (dlookup src k).isSome
        then dlookup src k else dlookup init k := by
  intro keys
  induction keys with
  | nil => intro init k; simp [rebuildFrom]
  | cons c rest ih =>
    intro init k
    simp only [rebuildFrom, List.foldl_cons] at ih ⊢
    rw [ih]
    rcases hsc : dlookup src c with _ | v
    · by_cases hk : k = c
      · subst hk
        simp [hsc]
      · simp [List.mem_cons, hk]
    · by_cases hk : k = c
      · subst hk
        simp [hsc, dlookup_dinsert]
      · have hne : ¬ c = k := fun h => hk h.symm
        by_cases hr : k ∈ rest
        · simp [List.mem_cons, hk, hr, dlookup_dinsert, hne]
        · simp [List.mem_cons, hk, hr, dlookup_dinsert, hne]

/-- C1 as amended: re-filtering with the full current CUI key set is a
no-op (completes without raising, same `cui2info`/`name2info`
contents) for stores satisfying the mutual-registration closure
invariants: every concept's names are registered in `name2info`, every
concept is reachable through one of its names' `per_cui_status`, and
every registered name is carried by some concept.  (The post-filter
store of `filter_by_cui` itself can violate the first invariant — an
indirectly kept concept keeps all its names while only the directly
requested names survive in `name2info` — which is what the
counterexample exploits.) -/
theorem C1_refilter_noop (st : CDB)
    (h1 : ∀ p ∈ st.cui2info, ∀ n ∈ p.2.names,
            (dlookup st.name2info n).isSome)
    (h2 : ∀ p ∈ st.cui2info, ∃ n ∈ p.2.names,
            p.1 ∈ ((dlookup st.name2info n).map
              (fun ni => dkeys ni.per_cui_status)).getD [])
    (h3 : ∀ q ∈ st.name2info, ∃ p ∈ st.cui2info,
            q.1 ∈ ((dlookup st.cui2info p.1).map
              (fun i => i.names)).getD []) :
    ∃ st', st.filterByCui (dkeys st.cui2info) = some st' ∧
      dequiv st'.cui2info st.cui2info ∧
      dequiv st'.name2info st.name2info := by
  have hlk : ∀ n ∈ namesToKeep st (dkeys st.cui2info),
      (dlookup st.name2info n).isSome := by
    intro n hn
    obtain ⟨c, _, i, hi, hni⟩ := (mem_namesToKeep st _ n).mp hn
    exact h1 (c, i) (lookup_mem _ _ _ hi) n hni
  obtain ⟨allc, hallc, hcover⟩ := cuisOfNames_some st.name2info _ hlk
  rcases hres : st.filterByCui (dkeys st.cui2info) with _ | st'
  · exfalso
    unfold CDB.filterByCui at hres
    dsimp only at hres
    rw [hallc] at hres
    exact Option.noConfusion hres
  · refine ⟨st', rfl, ?_, ?_⟩
    all_goals
      unfold CDB.filterByCui at hres
      dsimp only at hres
      rw [hallc] at hres
      have hst' := Option.some.inj hres
      subst hst'
    · intro k
      dsimp only [CDB.resetSubnames]
      rw [rebuild_lookup]
      by_cases hc : k ∈ allc ∧ (dlookup st.cui2info k).isSome
      · rw [if_pos hc]
      · rw [if_neg hc]
        rcases hl : dlookup st.cui2info k with _ | i
        · rfl
        · exfalso
          apply hc
          obtain ⟨n, hn, hmm⟩ := h2 (k, i) (lookup_mem _ _ _ hl)
          rcases hni : dlookup st.name2info n with _ | ni
          · rw [hni] at hmm
            simp at hmm
          · rw [hni] at hmm
            simp only [Option.map_some', Option.getD_some] at hmm
            have hnk : n ∈ namesToKeep st (dkeys st.cui2info) :=
              (mem_namesToKeep st _ n).mpr
                ⟨k, mem_dkeys_of_lookup _ _ _ hl, i, hl, hn⟩
            exact ⟨hcover n hnk ni hni k hmm, by simp [hl]⟩
    · intro k
      dsimp only [CDB.resetSubnames]
      rw [rebuild_lookup]
      by_cases hc : k ∈ namesToKeep st (dkeys st.cui2info) ∧
          (dlookup st.name2info k).isSome
      · rw [if_pos hc]
      · rw [if_neg hc]
        rcases hl : dlookup st.name2info k with _ | ni
        · rfl
        · exfalso
          apply hc
          obtain ⟨p, _, hmm⟩ := h3 (k, ni) (lookup_mem _ _ _ hl)
          rcases hci : dlookup st.cui2info p.1 with _ | i
          · rw [hci] at hmm
            simp at hmm
          · rw [hci] at hmm
            simp only [Option.map_some', Option.getD_some] at hmm
            refine ⟨(mem_namesToKeep st _ k).mpr
              ⟨p.1, mem_dkeys_of_lookup _ _ _ hci, i, hci, hmm⟩,
              by simp [hl]⟩

def c1InfoA : CUIInfo := { get_new_cui_info "A" "" [] with names := ["n1"] }

def c1InfoB : CUIInfo :=
  { get_new_cui_info "B" "" [] with names := ["n1", "n2"] }

def c1NI1 : NameInfo :=
  { get_new_name_info "n1" with per_cui_status := [("A", "A"), ("B", "A")] }

def c1NI2 : NameInfo :=
  { get_new_name_info "n2" with per_cui_status := [("B", "A")] }

/-- A store on which the first `filter_by_cui(['A'])` keeps concept
`B` indirectly (it shares name `n1` with `A`) while dropping `B`'s
other name `n2` from `name2info`. -/
def c1Bad : CDB :=
  { cui2info := [("A", c1InfoA), ("B", c1InfoB)],
    name2info := [("n1", c1NI1), ("n2", c1NI2)],
    type_id2info := [], token_counts := [], subnamesCache := [],
    is_dirty := false, has_changed_names := false }

/-- Counterexample to C1: after `filter_by_cui(['A'])` the store keeps
CUIs `A` and `B`, but the second `filter_by_cui` with that post-filter
CUI set raises (`KeyError` on `self.name2info['n2']` in the indirect
CUI collection loop, modelled by `none`) instead of being a no-op:
the first call breaks the names-registered invariant it relies on. -/
theorem C1_counterexample :
    (c1Bad.filterByCui ["A"]).map (fun st1 => dkeys st1.cui2info)
      = some ["A", "B"] ∧
    (c1Bad.filterByCui ["A"]).map
      (fun st1 => st1.filterByCui (dkeys st1.cui2info))
      = some none := by
  exact ⟨by decide, by decide⟩

def c1GInfo : CUIInfo := { get_new_cui_info "A" "" [] with names := ["n"] }

def c1GNI : NameInfo :=
  { get_new_name_info "n" with per_cui_status := [("A", "A")] }

/-- A store satisfying the closure invariants of the amended C1. -/
def c1Good : CDB :=
  { cui2info := [("A", c1GInfo)], name2info := [("n", c1GNI)],
    type_id2info := [], token_counts := [], subnamesCache := [],
    is_dirty := false, has_changed_names := false }

theorem C1_witness :
    ∃ st', c1Good.filterByCui (dkeys c1Good.cui2info) = some st' ∧
      dequiv st'.cui2info c1Good.cui2info ∧
      dequiv st'.name2info c1Good.name2info :=
  C1_refilter_noop c1Good (by decide) (by decide) (by decide)
